import Mathlib

/-!
Verification of the rmrf highlight-extraction pipeline.

This file gives a shallow embedding of the core of the rmrf repository:
the color resolver, the geometry utilities, the pen physics model, the
coordinate transformer and the block classifier / highlight extractor
(src/rmrf/parse.py, src/rmrf/utils/writing_tools.py, src/rmrf/base/fs.py),
together with theorems settling the behavioural claims about them.

Python floats are modelled as rationals, machine byte values as naturals,
and fallible code returns Except values over an explicit error type that
mirrors the Python exceptions the code can raise.
-/

/-- Errors raised by the embedded code, mirroring the Python exceptions.
The transformDidNotConverge constructor does not correspond to anything in
the source: it is modelled from the spec (section 4.4) which asks
implementations to fail fast with TransformDidNotConverge when an
iteration cap is exceeded. -/
inductive PyError where
  | transformationError (msg : String)
  | assertionError
  | nameError
  | keyError
  | typeError
  | valueError
  | attributeError
  | zeroDivisionError
  | indexError
  | outOfFuel
  | transformDidNotConverge
deriving DecidableEq, Repr

/-- An RGBA tuple as returned by get_color. -/
abbrev Rgba := ℕ × ℕ × ℕ × ℕ

/-- A point of a stroke.  Only the coordinates are carried: the pen
dynamics (speed, pressure, ...) are consumed exclusively by the pen
physics model, which is embedded as standalone functions below. -/
structure Point where
  x : ℚ
  y : ℚ
deriving DecidableEq, Repr

/-- The value of a SceneLineItemBlock item: an ordered point sequence and
a tool-color id (rmscene Line). -/
structure LineValue where
  points : List Point
  color : ℕ
deriving DecidableEq, Repr

/-- The value of a SceneGlyphItemBlock item.  Per the spec data model
(section 3) a Glyph has the same shape as a Stroke (an ordered point
sequence) together with the text payload and the color id the code reads
from it. -/
structure GlyphValue where
  points : List Point
  text : String
  color : ℕ
deriving DecidableEq, Repr

/-- The value of a RootTextBlock: the anchor position. -/
structure TextValue where
  posX : ℚ
  posY : ℚ
deriving DecidableEq, Repr

/-- A decoded scene block (rmscene block stream), as consumed by parse.py:
SceneLineItemBlock, SceneGlyphItemBlock, RootTextBlock or UnreadableBlock.
The item value is optional and the item carries a deleted_length; the
block carries optional raw trailing metadata (extra_data bytes). -/
inductive Block where
  | line (value : Option LineValue) (deletedLength : ℤ) (extraData : List ℕ)
  | glyph (value : Option GlyphValue) (deletedLength : ℤ) (extraData : List ℕ)
  | rootText (value : Option TextValue)
  | unreadable
deriving DecidableEq, Repr

/-- remarkable_palette from utils/writing_tools.py: the fixed tool-color
table mapping PenColor enumeration values to literal RGB triples. -/
def remarkablePalette : List (ℕ × List ℕ) :=
  [(0, [0, 0, 0]),        -- BLACK
   (1, [144, 144, 144]),  -- GRAY
   (2, [255, 255, 255]),  -- WHITE
   (3, [251, 247, 25]),   -- YELLOW
   (4, [0, 255, 0]),      -- GREEN
   (5, [255, 192, 203]),  -- PINK
   (6, [78, 105, 201]),   -- BLUE
   (7, [179, 62, 57]),    -- RED
   (8, [125, 125, 125]),  -- GRAY_OVERLAP
   (10, [161, 216, 125]), -- GREEN_2
   (11, [139, 208, 229]), -- CYAN
   (12, [183, 130, 205]), -- MAGENTA
   (13, [247, 232, 81])]  -- YELLOW_2

/-- Dictionary lookup in the palette. -/
def paletteLookup (c : ℕ) : Option (List ℕ) :=
  (remarkablePalette.find? (fun p => p.1 = c)).map Prod.snd

/-- get_color from parse.py, at the level of the data it reads: the raw
trailing metadata bytes and the tool-color id of the block item value.
If the metadata is present with at least 5 bytes the last four bytes are
read as (b, g, r, a); otherwise the palette is consulted, a missing key
raising KeyError, and a bare RGB triple defaulting alpha to 255. -/
def getColor (extraData : List ℕ) (colorId : ℕ) : Except PyError Rgba :=
  if extraData ≠ [] ∧ 5 ≤ extraData.length then
    match extraData.reverse with
    | a :: r :: g :: b :: _ => .ok (r, g, b, a)
    | _ => .error .valueError
  else
    match paletteLookup colorId with
    | none => .error .keyError
    | some l =>
      match l with
      | r :: g :: b :: rest =>
        .ok (r, g, b, match rest with | [] => 255 | a :: _ => a)
      | _ => .error .valueError

/-- get_color applied to a block (reads block.extra_data and
block.item.value.color). -/
def getColorBlock (b : Block) : Except PyError Rgba :=
  match b with
  | .line (some v) _ ed => getColor ed v.color
  | .glyph (some g) _ ed => getColor ed g.color
  | _ => .error .attributeError

/-- Running minimum of a Python min() call seeded at a. -/
def foldMin (a : ℚ) (l : List ℚ) : ℚ := l.foldl min a

/-- Running maximum of a Python max() call seeded at a. -/
def foldMax (a : ℚ) (l : List ℚ) : ℚ := l.foldl max a

/-- The coordinate pairs scanned by get_limits: every point of a
SceneLineItemBlock with a non-None value, and the anchor position of
every RootTextBlock with a non-None value.  Glyph blocks are not
scanned. -/
def limitPoints : List Block → List (ℚ × ℚ)
  | [] => []
  | .line (some v) _ _ :: rest => v.points.map (fun p => (p.x, p.y)) ++ limitPoints rest
  | .rootText (some t) :: rest => (t.posX, t.posY) :: limitPoints rest
  | _ :: rest => limitPoints rest

/-- get_limits from parse.py: the bounding box (x_min, y_min, x_max,
y_max) of the scanned coordinates, or none when no coordinate-bearing
block is present. -/
def getLimits (blocks : List Block) : Option (ℚ × ℚ × ℚ × ℚ) :=
  match limitPoints blocks with
  | [] => none
  | p :: ps =>
    some (foldMin p.1 (ps.map Prod.fst), foldMin p.2 (ps.map Prod.snd),
          foldMax p.1 (ps.map Prod.fst), foldMax p.2 (ps.map Prod.snd))

/-- Cross product term of the shoelace formula. -/
def cross2 (a b : ℚ × ℚ) : ℚ := a.1 * b.2 - b.1 * a.2

/-- Shapely polygon area of a point ring: half the absolute value of the
cyclic shoelace sum. -/
def polygonArea (l : List (ℚ × ℚ)) : ℚ :=
  match l with
  | [] => 0
  | p :: ps => |((List.zip (p :: ps) (ps ++ [p])).map (fun e => cross2 e.1 e.2)).sum| / 2

/-- The point list of a stroke or glyph block item value, as read by
is_rectangular via block.item.value.points. -/
def blockPoints (b : Block) : Except PyError (List Point) :=
  match b with
  | .line (some v) _ _ => .ok v.points
  | .glyph (some g) _ _ => .ok g.points
  | _ => .error .attributeError

/-- is_rectangular from parse.py: false for fewer than 4 points, false
for a non-positive bounding-box area, and otherwise the comparison of the
polygon-to-bounding-box area quotient against the threshold.  A glyph
block reaching the bounding-box computation raises TypeError because
get_limits scans no glyph coordinates and yields None. -/
def isRectangular (b : Block) (threshold : ℚ) : Except PyError Bool :=
  match blockPoints b with
  | .error e => .error e
  | .ok pts =>
    if pts.length < 4 then .ok false
    else
      match getLimits [b] with
      | none => .error .typeError
      | some (xmin, ymin, xmax, ymax) =>
        let rectangle := (xmax - xmin) * (ymax - ymin)
        if rectangle ≤ 0 then .ok false
        else .ok (decide (threshold ≤ polygonArea (pts.map (fun p => (p.x, p.y))) / rectangle))

/-- Pen.cutoff from utils/writing_tools.py: clamp a value into [0, 1]. -/
def penCutoff (value : ℚ) : ℚ := max 0 (min 1 value)

/-- Pencil.get_segment_opacity from utils/writing_tools.py: the clamped
pressure and speed combination, minus one tenth. -/
def pencilSegmentOpacity (speed direction width pressure lastWidth : ℚ) : ℚ :=
  penCutoff ((1/10) * (-((speed / 4) / 35)) + 1 * pressure / 255) - 1/10

/-- Sequencing of fallible computations (Python exception propagation):
an error short-circuits, a value flows on. -/
def ebind {α β : Type} (e : Except PyError α) (f : α → Except PyError β) : Except PyError β :=
  match e with
  | .error err => .error err
  | .ok x => f x


/-- Case analysis on an optional value. -/
def ocase {α β : Type} (o : Option α) (d : β) (f : α → β) : β :=
  match o with
  | none => d
  | some x => f x


/-- The page-context fields of a node read by get_transformation:
node.zoom_width, node.zoom_height and node.center_y. -/
structure NodeCtx where
  zoomWidth : ℚ
  zoomHeight : ℚ
  centerY : ℚ
deriving DecidableEq, Repr

/-- The reference document collaborator: page rasterization yields a
pixmap size per page index, or nothing for an invalid index (fitz raises
on doc access with a bad index). -/
structure Doc where
  pages : ℤ → Option (ℕ × ℕ)

/-- The transform returned by get_transformation: shifts, final canvas
size, scales and the optional base raster size. -/
structure Transform where
  xDelta : ℚ
  yDelta : ℚ
  width : ℤ
  height : ℤ
  xScale : ℚ
  yScale : ℚ
  baseImage : Option (ℕ × ℕ)
deriving DecidableEq, Repr

/-- Round to the nearest integer, ties to even: the rounding of the
Python round builtin. -/
def roundHalfEven (q : ℚ) : ℤ :=
  let f := ⌊q⌋
  let r := q - f
  if r < 1/2 then f
  else if 1/2 < r then f + 1
  else if f % 2 = 0 then f else f + 1

/-- Python round(q, 2). -/
def roundTo2 (q : ℚ) : ℚ := (roundHalfEven (q * 100) : ℚ) / 100

/-- The guard of the horizontal widening loop of get_transformation. -/
def xGuard (xmin xmax : ℚ) (xd w : ℚ) : Bool :=
  decide (w < xmax - xmin) || decide (xmin + xd < 0) || decide (w < xmax + xd)
    || decide (w < xmax) || decide (w < xd * 2)

/-- One iteration of the horizontal widening loop: recompute x_delta as
the max of the three candidates, then the screen width as the max of the
four candidates; when the width changed, rescale the screen height
proportionally (a zero current width raises ZeroDivisionError). -/
def xStep (xmin xmax : ℚ) (xd w h : ℚ) : Except PyError (ℚ × ℚ × ℚ) :=
  let xd' := max (if xmin < 0 then |xmin| else 0) (max xd (w / 2))
  let w' := max ((⌈xmax - xmin⌉ : ℤ) : ℚ)
      (max w (max ((⌈xd' * 2⌉ : ℤ) : ℚ) ((⌈xmax + xd'⌉ : ℤ) : ℚ)))
  if w' ≠ w then
    if w = 0 then .error .zeroDivisionError
    else .ok (xd', w', h * w' / w)
  else .ok (xd', w', h)

/-- The horizontal widening loop, with explicit fuel.  Exhausted fuel
with the guard still true is reported as outOfFuel; the loop is proved
below to exit after at most one iteration, so any fuel bound of at least
one gives the behaviour of the unbounded Python while loop. -/
def xLoop (xmin xmax : ℚ) : ℕ → ℚ × ℚ × ℚ → Except PyError (ℚ × ℚ × ℚ)
  | 0, s => if xGuard xmin xmax s.1 s.2.1 then .error .outOfFuel else .ok s
  | n + 1, s =>
    if xGuard xmin xmax s.1 s.2.1 then
      ebind (xStep xmin xmax s.1 s.2.1 s.2.2) (xLoop xmin xmax n)
    else .ok s

/-- The guard of the vertical widening loop of get_transformation. -/
def yGuard (ymin ymax : ℚ) (yd h : ℚ) : Bool :=
  decide (h < ymax - ymin) || decide (ymin + yd < 0) || decide (h < ymax + yd)
    || decide (h < ymax)

/-- One iteration of the vertical widening loop: recompute y_delta as the
max of the three candidates (using the page-center candidate), then the
screen height as the max of the four candidates; when the height changed,
enlarge the screen width proportionally but never shrink it. -/
def yStep (cy ymin ymax : ℚ) (yd w h : ℚ) : Except PyError (ℚ × ℚ × ℚ) :=
  let yd' := max (if ymin < 0 then |ymin| else 0) (max (cy - h / 2) yd)
  let h' := max ((⌈ymax - ymin⌉ : ℤ) : ℚ)
      (max h (max ((⌈ymax + yd'⌉ : ℤ) : ℚ) ((⌈ymax⌉ : ℤ) : ℚ)))
  if h' ≠ h then
    if h = 0 then .error .zeroDivisionError
    else .ok (yd', max (w * h' / h) w, h')
  else .ok (yd', w, h')

/-- The vertical widening loop with explicit fuel; the state is
(y_delta, screen_width, screen_height). -/
def yLoop (cy ymin ymax : ℚ) : ℕ → ℚ × ℚ × ℚ → Except PyError (ℚ × ℚ × ℚ)
  | 0, s => if yGuard ymin ymax s.1 s.2.2 then .error .outOfFuel else .ok s
  | n + 1, s =>
    if yGuard ymin ymax s.1 s.2.2 then
      ebind (yStep cy ymin ymax s.1 s.2.1 s.2.2) (yLoop cy ymin ymax n)
    else .ok s

/-- Modelled from the spec: the horizontal loop with the iteration cap
the spec asks for (section 4.4), failing fast with
TransformDidNotConverge when the cap is exceeded.  The source code has no
such cap; this definition exists to compare the spec behaviour with the
code behaviour. -/
def xLoopCapped (xmin xmax : ℚ) : ℕ → ℚ × ℚ × ℚ → Except PyError (ℚ × ℚ × ℚ)
  | 0, s =>
    if xGuard xmin xmax s.1 s.2.1 then .error .transformDidNotConverge else .ok s
  | n + 1, s =>
    if xGuard xmin xmax s.1 s.2.1 then
      ebind (xStep xmin xmax s.1 s.2.1 s.2.2) (xLoopCapped xmin xmax n)
    else .ok s

/-- Modelled from the spec: the vertical loop with the iteration cap and
the TransformDidNotConverge failure of section 4.4 of the spec. -/
def yLoopCapped (cy ymin ymax : ℚ) : ℕ → ℚ × ℚ × ℚ → Except PyError (ℚ × ℚ × ℚ)
  | 0, s =>
    if yGuard ymin ymax s.1 s.2.2 then .error .transformDidNotConverge else .ok s
  | n + 1, s =>
    if yGuard ymin ymax s.1 s.2.2 then
      ebind (yStep cy ymin ymax s.1 s.2.1 s.2.2) (yLoopCapped cy ymin ymax n)
    else .ok s

/-- The Python assert statement: ok when the condition holds,
AssertionError otherwise. -/
def assertCheck (cond : Prop) [Decidable cond] : Except PyError Unit :=
  if cond then .ok () else .error .assertionError

/-- The base raster fetched by get_transformation when both a document
and a page index are given: the page pixmap size, an invalid page index
raising. -/
def baseImageOf (doc : Option Doc) (pageIndex : Option ℤ) : Except PyError (Option (ℕ × ℕ)) :=
  match doc, pageIndex with
  | some d, some i => ocase (d.pages i) (.error .indexError) fun img => .ok (some img)
  | _, _ => .ok none

/-- get_transformation from parse.py.  Computes the bounding box (raising
TransformationError when empty), fetches the base raster when a document
and page index are given, runs the two widening loops from the initial
deltas (x_delta = zoom_width / 2, y_delta = max(0, -y_min)), checks the
in-bounds assertions (the vertical ones against the ceiled height),
rounds the canvas up to integers, and either scales to the base raster
(minimum axis ratio rounded to 2 decimals, canvas grown to cover the
raster) or returns unit scales.  The bounding box lims is
(x_min, y_min, x_max, y_max). -/
def getTransformation (fuel : ℕ) (node : NodeCtx) (blocks : List Block)
    (doc : Option Doc) (pageIndex : Option ℤ) : Except PyError Transform :=
  ocase (getLimits blocks)
    (.error (.transformationError "No points found in the blocks")) fun lims =>
  ebind (baseImageOf doc pageIndex) fun baseImage =>
  ebind (xLoop lims.1 lims.2.2.1 fuel
      (node.zoomWidth / 2, node.zoomWidth, node.zoomHeight)) fun s1 =>
  ebind (assertCheck (lims.2.2.1 + s1.1 ≤ s1.2.1)) fun _ =>
  ebind (assertCheck (0 ≤ lims.1 + s1.1)) fun _ =>
  ebind (assertCheck (lims.2.2.1 - lims.1 ≤ s1.2.1)) fun _ =>
  ebind (yLoop node.centerY lims.2.1 lims.2.2.2 fuel
      ((if lims.2.1 < 0 then |lims.2.1| else 0), s1.2.1, s1.2.2)) fun s2 =>
  ebind (assertCheck (lims.2.2.2 + s2.1 ≤ ((⌈s2.2.2⌉ : ℤ) : ℚ))) fun _ =>
  ebind (assertCheck (0 ≤ lims.2.1 + s2.1)) fun _ =>
  ebind (assertCheck (lims.2.2.2 - lims.2.1 ≤ ((⌈s2.2.2⌉ : ℤ) : ℚ))) fun _ =>
  ocase baseImage
    (Except.ok ⟨s1.1, s2.1, ⌈s2.2.1⌉, ⌈s2.2.2⌉, 1, 1, none⟩)
    (fun img =>
      if (⌈s2.2.1⌉ : ℤ) = 0 ∨ (⌈s2.2.2⌉ : ℤ) = 0 then .error .zeroDivisionError
      else
        let s := roundTo2 (min ((img.1 : ℚ) / ((⌈s2.2.1⌉ : ℤ) : ℚ))
          ((img.2 : ℚ) / ((⌈s2.2.2⌉ : ℤ) : ℚ)))
        Except.ok ⟨s1.1, s2.1, ⌈(((⌈s2.2.1⌉ : ℤ) : ℚ) * s) ⊔ (img.1 : ℚ)⌉,
          ⌈(((⌈s2.2.2⌉ : ℤ) : ℚ) * s) ⊔ (img.2 : ℚ)⌉, s, s, some img⟩)

/-- The block index recorded on a highlight: a position in the page's
block sequence, or the float(inf) sentinel used for the aggregate vector
output. -/
inductive BlockIdx where
  | fin (n : ℕ)
  | inf
deriving DecidableEq, Repr

/-- The strict order on recorded block indices: finite indices compare as
naturals and the sentinel is above every finite index. -/
def BlockIdx.lt : BlockIdx → BlockIdx → Prop
  | .fin a, .fin b => a < b
  | .fin _, .inf => True
  | .inf, _ => False

/-- An extracted highlight.  TextHighlight carries the (page_index or -1)
integer, while ImageHighlight / DrawingHighlight (a class alias in
base/fs.py) carry the page index exactly as invoked; a DrawingHighlight
is the image variant with the inf block index sentinel. -/
inductive Highlight where
  | text (pageIndex : ℤ) (blockIndex : BlockIdx) (tags : List String)
      (txt : String) (color : Rgba)
  | image (pageIndex : Option ℤ) (blockIndex : BlockIdx) (tags : List String)
deriving DecidableEq, Repr

/-- The block index recorded on a highlight. -/
def Highlight.blockIdx : Highlight → BlockIdx
  | .text _ i _ _ _ => i
  | .image _ i _ => i

/-- A highlight is the page's DrawingHighlight exactly when it carries
the inf sentinel. -/
def Highlight.isDrawing (h : Highlight) : Bool := h.blockIdx = BlockIdx.inf

/-- The Python expression (page_index or -1): -1 when the page index is
None or the (falsy) integer 0, the page index itself otherwise. -/
def pyOrNeg1 (pi : Option ℤ) : ℤ :=
  match pi with
  | some i => if i = 0 then -1 else i
  | none => -1

/-- Outcome of classifying one block: skipped, an immediate
TextHighlight, a vector-render candidate with its color, or a crop
candidate. -/
inductive ClassifyOut where
  | skip
  | highlight (h : Highlight)
  | svgEntry (e : ℕ × Block × Rgba)
  | cropEntry (e : ℕ × Block)
deriving DecidableEq, Repr

/-- The per-block dispatch of the classification loop of
extract_highlights_from_blocks: unreadable and foreign blocks are
skipped, a RootTextBlock becomes a black vector candidate, a missing
item value or a positive deleted_length is skipped, a block with a
non-empty text payload becomes a TextHighlight with its resolved color,
a block without points is skipped, and a genuine handwriting block goes
to the crop candidates when the rectangularity test passes and cropping
is enabled, otherwise to the vector candidates with its resolved
color. -/
def classifyOne (pi : Option ℤ) (tags : List String) (ec : Bool) (i : ℕ) (b : Block) :
    Except PyError ClassifyOut :=
  match b with
  | .unreadable => .ok .skip
  | .rootText v => .ok (.svgEntry (i, .rootText v, (0, 0, 0, 255)))
  | .line none _ _ => .ok .skip
  | .line (some v) dl ed =>
    if 0 < dl then .ok .skip
    else if v.points = [] then .ok .skip
    else
      match isRectangular (.line (some v) dl ed) (4/5) with
      | .error e => .error e
      | .ok true =>
        if ec then .ok (.cropEntry (i, .line (some v) dl ed))
        else
          match getColor ed v.color with
          | .error e => .error e
          | .ok c => .ok (.svgEntry (i, .line (some v) dl ed, c))
      | .ok false =>
        match getColor ed v.color with
        | .error e => .error e
        | .ok c => .ok (.svgEntry (i, .line (some v) dl ed, c))
  | .glyph none _ _ => .ok .skip
  | .glyph (some g) dl ed =>
    if 0 < dl then .ok .skip
    else if g.text ≠ "" then
      match getColor ed g.color with
      | .error e => .error e
      | .ok c => .ok (.highlight (.text (pyOrNeg1 pi) (.fin i) tags g.text c))
    else if g.points = [] then .ok .skip
    else
      match isRectangular (.glyph (some g) dl ed) (4/5) with
      | .error e => .error e
      | .ok true =>
        if ec then .ok (.cropEntry (i, .glyph (some g) dl ed))
        else
          match getColor ed g.color with
          | .error e => .error e
          | .ok c => .ok (.svgEntry (i, .glyph (some g) dl ed, c))
      | .ok false =>
        match getColor ed g.color with
        | .error e => .error e
        | .ok c => .ok (.svgEntry (i, .glyph (some g) dl ed, c))

/-- Append the outcome of one classified block in front of the
accumulated (highlights, vector candidates, crop candidates) triple. -/
def applyOut (out : ClassifyOut)
    (acc : List Highlight × List (ℕ × Block × Rgba) × List (ℕ × Block)) :
    List Highlight × List (ℕ × Block × Rgba) × List (ℕ × Block) :=
  match out with
  | .skip => acc
  | .highlight h => (h :: acc.1, acc.2.1, acc.2.2)
  | .svgEntry s => (acc.1, s :: acc.2.1, acc.2.2)
  | .cropEntry c => (acc.1, acc.2.1, c :: acc.2.2)

/-- The classification loop over the enumerated block sequence, starting
at position i: accumulates the TextHighlights, the vector candidates and
the crop candidates in block order. -/
def classifyAux (pi : Option ℤ) (tags : List String) (ec : Bool) :
    ℕ → List Block →
    Except PyError (List Highlight × List (ℕ × Block × Rgba) × List (ℕ × Block))
  | _, [] => .ok ([], [], [])
  | i, b :: rest =>
    ebind (classifyOne pi tags ec i b) fun out =>
      ebind (classifyAux pi tags ec (i + 1) rest) fun acc =>
        .ok (applyOut out acc)

/-- The crop loop: for each crop candidate, recompute its bounding box
(None would make the coordinate arithmetic raise TypeError), crop the
base raster, persist it as one temporary file and emit an ImageHighlight
with the invoked page index and the candidate's block index. -/
def cropEach (pi : Option ℤ) (tags : List String) :
    List (ℕ × Block) → Except PyError (List Highlight)
  | [] => .ok []
  | p :: rest =>
    ocase (getLimits [p.2]) (.error .typeError) fun _ =>
      ebind (cropEach pi tags rest) fun hs =>
        .ok (.image pi (.fin p.1) tags :: hs)

/-- The degradation of crop candidates to vector candidates when no base
raster exists: each candidate gets its color resolved (which can raise
KeyError). -/
def degradeColors : List (ℕ × Block) → Except PyError (List (ℕ × Block × Rgba))
  | [] => .ok []
  | p :: rest =>
    ebind (getColorBlock p.2) fun c =>
      ebind (degradeColors rest) fun l =>
        .ok ((p.1, p.2, c) :: l)

/-- Modelled from the spec: blocks_to_svg, the Vector Composer of spec
section 4.6.  The module parse.py imports (rmrf.export.svg) is not under
src/ (the top-level rmrf/svg.py present there is a stale variant that no
module imports and whose signature does not accept the scale arguments
parse.py passes).  Per the spec the composer renders the accumulated
candidates over the page transform into one self-contained vector
document; its rendering side effects are outside the extraction claims,
so it is modelled as always succeeding. -/
def blocksToSvg (entries : List (ℕ × Block × Rgba)) (t : Transform) : Except PyError Unit :=
  .ok ()

/-- The highlight list of one page together with the number of temporary
files written while producing it. -/
structure ExtractResult where
  highlights : List Highlight
  tempFiles : ℕ
deriving DecidableEq, Repr

/-- The try/except around get_transformation in
extract_highlights_from_blocks: only TransformationError is caught (the
page is merely logged as skipped), leaving the transform variables
unbound (none); any other exception propagates. -/
def catchTransform (e : Except PyError Transform) : Except PyError (Option Transform) :=
  match e with
  | .ok t => .ok (some t)
  | .error (.transformationError _) => .ok none
  | .error err => .error err

/-- The crop-candidate resolution stage: with no candidates nothing
happens; with candidates, reading the (possibly unbound) base image
raises NameError when the transform failed; with a base image every
candidate is cropped into an ImageHighlight; without one the candidates
degrade to vector candidates with their colors resolved. -/
def resolveCrops (crops : List (ℕ × Block)) (otr : Option Transform)
    (pi : Option ℤ) (tags : List String) :
    Except PyError (List Highlight × List (ℕ × Block × Rgba)) :=
  if crops ≠ [] then
    ocase otr (.error .nameError) fun t =>
      ocase t.baseImage
        (ebind (degradeColors crops) fun extra => .ok ([], extra))
        (fun _ => ebind (cropEach pi tags crops) fun imgs => .ok (imgs, []))
  else .ok ([], [])

/-- The vector-render stage: with no vector candidates the page result
is the texts followed by the image highlights; otherwise reading the
(possibly unbound) transform raises NameError, and on success one vector
temporary file is written and a single DrawingHighlight with the inf
sentinel is appended last. -/
def finishSvg (texts : List Highlight) (svgs : List (ℕ × Block × Rgba))
    (imgs : List Highlight) (otr : Option Transform)
    (pi : Option ℤ) (tags : List String) : Except PyError ExtractResult :=
  if svgs = [] then .ok ⟨texts ++ imgs, imgs.length⟩
  else
    ocase otr (.error .nameError) fun t =>
      ebind (blocksToSvg svgs t) fun _ =>
        .ok ⟨texts ++ imgs ++ [.image pi .inf tags], imgs.length + 1⟩

/-- extract_highlights_from_blocks from parse.py: classify every block,
attempt the page transform catching only TransformationError (the
variables the later stages read stay unbound on that path, so reading
them raises NameError), resolve the crop candidates against the base
raster (degrading them to vector candidates without one), and finally
render the vector candidates into one temporary file, emitting a single
DrawingHighlight with the inf sentinel after the texts and images. -/
def extractHighlightsFromBlocks (fuel : ℕ) (blocks : List Block) (enableCropping : Bool)
    (pageIndex : Option ℤ) (pageTags : List String) (node : NodeCtx) (doc : Option Doc) :
    Except PyError ExtractResult :=
  ebind (classifyAux pageIndex pageTags enableCropping 0 blocks) fun cls =>
  ebind (catchTransform (getTransformation fuel node blocks doc pageIndex)) fun otr =>
  ebind (resolveCrops cls.2.2 otr pageIndex pageTags) fun ci =>
  finishSvg cls.1 (cls.2.1 ++ ci.2) ci.1 otr pageIndex pageTags

/-- A document node as consumed by extract_highlights: the page context,
the per-page block map (a page id unknown to the page map yields the None
key), the page tag map and the optional reference document. -/
structure NodeModel where
  ctx : NodeCtx
  rmBlocks : List (Option ℤ × List Block)
  pageTags : List (ℤ × List String)
  doc : Option Doc

/-- node.page_tags.get(page_index, set()). -/
def tagsFor (node : NodeModel) (pi : Option ℤ) : List String :=
  match pi with
  | some i => ((node.pageTags.find? (fun p => p.1 = i)).map Prod.snd).getD []
  | none => []

/-- Python sorted() over the page map items: comparing the None key with
an integer key raises TypeError (only possible when there are at least
two items); otherwise a stable sort by the integer page index. -/
def sortPages (l : List (Option ℤ × List Block)) :
    Except PyError (List (Option ℤ × List Block)) :=
  if 2 ≤ l.length ∧ l.any (fun p => p.1 = none) then .error .typeError
  else .ok (List.insertionSort (fun a b => a.1.getD 0 ≤ b.1.getD 0) l)

/-- The page loop of extract_highlights: process the sorted pages in
order, extending the aggregate list with each page's highlights. -/
def extractPages (fuel : ℕ) (ec : Bool) (node : NodeModel) :
    List (Option ℤ × List Block) → Except PyError (List Highlight)
  | [] => .ok []
  | p :: rest =>
    ebind (extractHighlightsFromBlocks fuel p.2 ec p.1 (tagsFor node p.1) node.ctx node.doc)
      fun r =>
        ebind (extractPages fuel ec node rest) fun hs =>
          .ok (r.highlights ++ hs)

/-- extract_highlights from parse.py: nothing for an empty block map,
otherwise the concatenation of the per-page extractions over the pages
sorted by page index. -/
def extractHighlights (fuel : ℕ) (node : NodeModel) (enableCropping : Bool) :
    Except PyError (List Highlight) :=
  if node.rmBlocks = [] then .ok []
  else
    match sortPages node.rmBlocks with
    | .error e => .error e
    | .ok pages => extractPages fuel enableCropping node pages

/-- Decidable equality of fallible results, used to evaluate the
embedding on concrete inputs. -/
instance {ε α : Type} [DecidableEq ε] [DecidableEq α] : DecidableEq (Except ε α) := fun x y =>
  match x, y with
  | .ok a, .ok b =>
    if h : a = b then isTrue (by rw [h])
    else isFalse (by intro hc; cases hc; exact h rfl)
  | .error a, .error b =>
    if h : a = b then isTrue (by rw [h])
    else isFalse (by intro hc; cases hc; exact h rfl)
  | .ok _, .error _ => isFalse (by intro h; cases h)
  | .error _, .ok _ => isFalse (by intro h; cases h)

/-- Strict ordering of two highlights by recorded block index. -/
def hlIdxLt (a b : Highlight) : Prop := BlockIdx.lt a.blockIdx b.blockIdx

/-- The shape of one page's extracted highlight list: the TextHighlights
first (recorded page index (page_index or -1), finite block indices in
strictly increasing order), then the ImageHighlights (invoked page
index, finite block indices in strictly increasing order, indices
disjoint from the text indices), then at most one DrawingHighlight
carrying the inf sentinel. -/
def pageShape (pi : Option ℤ) (tags : List String) (hs : List Highlight) : Prop :=
  ∃ ts imgs dr,
    hs = ts ++ imgs ++ dr ∧
    (∀ h ∈ ts, ∃ i txt c, h = Highlight.text (pyOrNeg1 pi) (.fin i) tags txt c) ∧
    List.Pairwise hlIdxLt ts ∧
    (∀ h ∈ imgs, ∃ i, h = Highlight.image pi (.fin i) tags) ∧
    List.Pairwise hlIdxLt imgs ∧
    (∀ a ∈ ts, ∀ b ∈ imgs, a.blockIdx ≠ b.blockIdx) ∧
    (dr = [] ∨ dr = [Highlight.image pi .inf tags])

/-- What page index each highlight variant records, relative to the page
index the extraction was invoked with: TextHighlights record
(page_index or -1), ImageHighlights and DrawingHighlights record the
invoked page index unchanged. -/
def recordedPageOk (invoked : Option ℤ) : Highlight → Prop
  | .text p _ _ _ _ => p = pyOrNeg1 invoked
  | .image p _ _ => p = invoked

/-- Strict ordering of two page keys; only integer keys compare. -/
def optPageLt : Option ℤ → Option ℤ → Prop
  | some a, some b => a < b
  | _, _ => False

/-- The page context of the MockNode fallback in
extract_highlights_from_blocks (zoom_width 1620, zoom_height 2160,
center_y 1080). -/
def mockCtx : NodeCtx := ⟨1620, 2160, 1080⟩

/-- A one-point stroke block at the origin. -/
def demoStroke : Block := .line (some ⟨[⟨0, 0⟩], 0⟩) 0 []

/-- A glyph block with a far-away point and a non-empty text payload. -/
def demoGlyphFar : Block := .glyph (some ⟨[⟨1000000, 0⟩], "x", 0⟩) 0 []

/-- A glyph highlight block: non-empty text, no points, raw color
metadata bytes. -/
def demoHighlightGlyph : Block := .glyph (some ⟨[], "hi", 0⟩) 0 [1, 2, 3, 4, 5]

/-- A RootTextBlock whose value is None. -/
def demoEmptyText : Block := .rootText none

/-- A perfect axis-aligned 4-point rectangle stroke value. -/
def unitSquare : LineValue := ⟨[⟨0, 0⟩, ⟨1, 0⟩, ⟨1, 1⟩, ⟨0, 1⟩], 0⟩

/-- A degenerate collinear 4-point stroke value (zero bounding-box
area). -/
def degenStroke : LineValue := ⟨[⟨0, 0⟩, ⟨1, 0⟩, ⟨2, 0⟩, ⟨3, 0⟩], 0⟩

/-- A two-page document node whose pages each hold one glyph highlight
block, listed out of page order. -/
def demoNode : NodeModel :=
  ⟨mockCtx, [(some 1, [demoHighlightGlyph]), (some 0, [demoHighlightGlyph])], [], none⟩

lemma ebind_ok {α β : Type} (x : α) (f : α → Except PyError β) : ebind (.ok x) f = f x := rfl

lemma ebind_error {α β : Type} (err : PyError) (f : α → Except PyError β) :
    ebind (.error err) f = .error err := rfl

lemma ocase_none {α β : Type} (d : β) (f : α → β) : ocase (none : Option α) d f = d := rfl

lemma ocase_some {α β : Type} (x : α) (d : β) (f : α → β) : ocase (some x) d f = f x := rfl

lemma list_four_cons {α : Type} (l : List α) (h : 4 ≤ l.length) :
    ∃ a b c d rest, l = a :: b :: c :: d :: rest := by
  rcases l with _ | ⟨a, l⟩
  · simp at h
  rcases l with _ | ⟨b, l⟩
  · simp at h
  rcases l with _ | ⟨c, l⟩
  · simp at h
  rcases l with _ | ⟨d, l⟩
  · simp at h
  exact ⟨a, b, c, d, l, rfl⟩

/-- C9 counterexample: at zero speed and zero pressure the pencil
segment opacity is -1/10, strictly below the claimed interval [0, 1]. -/
theorem c9_counterexample :
    pencilSegmentOpacity 0 0 0 0 0 = -(1/10) ∧ pencilSegmentOpacity 0 0 0 0 0 < 0 := by
  constructor <;> norm_num [pencilSegmentOpacity, penCutoff]

/-- C9 (amended): for every input, the pencil segment opacity lies in
the closed interval [-1/10, 9/10]: the pressure and speed combination is
clamped to [0, 1] and one tenth is then subtracted, so the result is not
clamped to [0, 1] as claimed. -/
theorem c9_pencil_opacity_range (speed direction width pressure lastWidth : ℚ) :
    -(1/10) ≤ pencilSegmentOpacity speed direction width pressure lastWidth ∧
    pencilSegmentOpacity speed direction width pressure lastWidth ≤ 9/10 := by
  unfold pencilSegmentOpacity penCutoff
  constructor
  · have h0 : (0 : ℚ) ≤ max 0 (min 1 ((1/10) * (-((speed / 4) / 35)) + 1 * pressure / 255)) :=
      le_max_left _ _
    linarith
  · have h1 : max 0 (min 1 ((1/10) * (-((speed / 4) / 35)) + 1 * pressure / 255)) ≤ 1 :=
      max_le (by norm_num) (min_le_left _ _)
    linarith

/-- C5 counterexample: the fixed palette holds 13 named colors, not the
14 the claim names. -/
theorem c5_counterexample :
    remarkablePalette.length = 13 ∧ remarkablePalette.length ≠ 14 := by decide

/-- C5 (amended): get_color fails with the unknown-color KeyError if and
only if the block carries no raw metadata of at least 5 bytes and its
tool-color id is not one of the fixed palette's 13 named colors; when
the palette entry is a bare RGB triple the returned alpha is 255. -/
theorem c5_unknown_color (ed : List ℕ) (c : ℕ) :
    (getColor ed c = .error .keyError ↔ ed.length < 5 ∧ paletteLookup c = none) ∧
    (∀ r g b, ed.length < 5 → paletteLookup c = some [r, g, b] →
      getColor ed c = .ok (r, g, b, 255)) := by
  by_cases h5 : 5 ≤ ed.length
  · have hne : ed ≠ [] := by
      intro h
      rw [h] at h5
      simp at h5
    obtain ⟨a, r, g, b, rest, hrev⟩ :=
      list_four_cons ed.reverse (by rw [List.length_reverse]; omega)
    constructor
    · rw [getColor, if_pos ⟨hne, h5⟩, hrev]
      simp only []
      constructor
      · intro h
        exact absurd h (by simp)
      · rintro ⟨h, _⟩
        omega
    · intro r2 g2 b2 hlt
      omega
  · have hcond : ¬(ed ≠ [] ∧ 5 ≤ ed.length) := by
      rintro ⟨_, h⟩
      exact h5 h
    constructor
    · rw [getColor, if_neg hcond]
      cases hp : paletteLookup c with
      | none => simp [hp]; omega
      | some l =>
        rcases l with _ | ⟨r, l⟩
        · simp
        rcases l with _ | ⟨g, l⟩
        · simp
        rcases l with _ | ⟨b, l⟩
        · simp
        simp [hp]
    · intro r g b hlt hp
      rw [getColor, if_neg hcond, hp]

/-- C6: for every block whose raw trailing metadata is at least 5 bytes
long, get_color reads the last four bytes as (b, g, r, a) and returns
(r, g, b, a), and the result does not depend on the tool-color id, so it
is a deterministic function of the metadata bytes. -/
theorem c6_raw_metadata (ed : List ℕ) (c c2 : ℕ) :
    (∀ a r g b rest, 5 ≤ ed.length → ed.reverse = a :: r :: g :: b :: rest →
      getColor ed c = .ok (r, g, b, a)) ∧
    (5 ≤ ed.length → getColor ed c = getColor ed c2) := by
  constructor
  · intro a r g b rest h5 hrev
    have hne : ed ≠ [] := by
      intro h
      rw [h] at h5
      simp at h5
    rw [getColor, if_pos ⟨hne, h5⟩, hrev]
  · intro h5
    have hne : ed ≠ [] := by
      intro h
      rw [h] at h5
      simp at h5
    rw [getColor, if_pos ⟨hne, h5⟩, getColor, if_pos ⟨hne, h5⟩]

/-- C6 witness: the metadata bytes [1, 2, 3, 4, 5] decode to the RGBA
tuple (4, 3, 2, 5) regardless of the tool-color id. -/
theorem c6_witness :
    getColor [1, 2, 3, 4, 5] 0 = .ok (4, 3, 2, 5) ∧
    getColor [1, 2, 3, 4, 5] 0 = getColor [1, 2, 3, 4, 5] 1 :=
  ⟨(c6_raw_metadata [1, 2, 3, 4, 5] 0 1).1 5 4 3 2 [1] (by decide) (by decide),
   (c6_raw_metadata [1, 2, 3, 4, 5] 0 1).2 (by decide)⟩

/-- C5 witness: an empty metadata list with the named color 0 resolves
through the palette to black with alpha 255 and does not raise. -/
theorem c5_witness :
    getColor [] 0 = .ok (0, 0, 0, 255) ∧ ¬(getColor [] 0 = .error .keyError) :=
  ⟨(c5_unknown_color [] 0).2 0 0 0 (by decide) (by decide),
   fun h => by
     have := ((c5_unknown_color [] 0).1).mp h
     exact absurd this.2 (by decide)⟩

/-- C7: is_rectangular on a stroke returns false for fewer than 4 points
and for a non-positive bounding-box area, and otherwise returns true
exactly when the shoelace polygon area divided by the bounding-box area
reaches the threshold; a perfect 4-point axis-aligned rectangle passes
at the default threshold 4/5 and a degenerate zero-area stroke fails. -/
theorem c7_is_rectangular (v : LineValue) (dl : ℤ) (ed : List ℕ)
    (th xmin ymin xmax ymax : ℚ)
    (hlim : getLimits [Block.line (some v) dl ed] = some (xmin, ymin, xmax, ymax)) :
    (v.points.length < 4 → isRectangular (Block.line (some v) dl ed) th = .ok false) ∧
    ((xmax - xmin) * (ymax - ymin) ≤ 0 →
      isRectangular (Block.line (some v) dl ed) th = .ok false) ∧
    (4 ≤ v.points.length → 0 < (xmax - xmin) * (ymax - ymin) →
      (isRectangular (Block.line (some v) dl ed) th = .ok true ↔
        th ≤ polygonArea (v.points.map (fun p => (p.x, p.y))) /
          ((xmax - xmin) * (ymax - ymin)))) ∧
    isRectangular (.line (some unitSquare) 0 []) (4/5) = .ok true ∧
    isRectangular (.line (some degenStroke) 0 []) (4/5) = .ok false := by
  refine ⟨?_, ?_, ?_, ?_, ?_⟩
  rotate_left 3
  · norm_num [isRectangular, blockPoints, unitSquare, getLimits, limitPoints,
      foldMin, foldMax, polygonArea, cross2]
  · norm_num [isRectangular, blockPoints, degenStroke, getLimits, limitPoints,
      foldMin, foldMax, polygonArea, cross2]
  · intro h4
    rw [isRectangular]
    simp only [blockPoints]
    rw [if_pos h4]
  · intro hr
    rw [isRectangular]
    simp only [blockPoints]
    by_cases h4 : v.points.length < 4
    · rw [if_pos h4]
    · rw [if_neg h4, hlim]
      simp only []
      rw [if_pos hr]
  · intro h4 hpos
    rw [isRectangular]
    simp only [blockPoints]
    rw [if_neg (by omega), hlim]
    simp only []
    rw [if_neg (not_le.mpr hpos)]
    simp

/-- C7 witness: the unit square instantiation, where the bounding box is
(0, 0, 1, 1), four points are present and the area quotient is 1. -/
theorem c7_witness :
    isRectangular (.line (some unitSquare) 0 []) (4/5) = .ok true ∧
    (isRectangular (.line (some unitSquare) 0 []) (4/5) = .ok true ↔
      4/5 ≤ polygonArea (unitSquare.points.map (fun p => (p.x, p.y))) / ((1 - 0) * (1 - 0))) :=
  ⟨((c7_is_rectangular unitSquare 0 [] (4/5) 0 0 1 1
      (by norm_num [getLimits, limitPoints, unitSquare, foldMin, foldMax])).2.2.2).1,
   (c7_is_rectangular unitSquare 0 [] (4/5) 0 0 1 1
      (by norm_num [getLimits, limitPoints, unitSquare, foldMin, foldMax])).2.2.1
     (by decide) (by norm_num)⟩

lemma xStep_guard_false {xmin xmax xd w h xd2 w2 h2 : ℚ}
    (hstep : xStep xmin xmax xd w h = .ok (xd2, w2, h2)) :
    xGuard xmin xmax xd2 w2 = false := by
  rw [xStep] at hstep
  set a := (if xmin < 0 then |xmin| else 0) with ha
  have ha0 : 0 ≤ a := by
    rw [ha]
    split
    · exact abs_nonneg xmin
    · exact le_refl 0
  have hmina : 0 ≤ xmin + a := by
    rw [ha]
    rcases lt_or_le xmin 0 with hx | hx
    · rw [if_pos hx, abs_of_neg hx]
      linarith
    · rw [if_neg (not_lt.mpr hx)]
      linarith
  set xdn := max a (max xd (w / 2)) with hxdn
  set wn := max ((⌈xmax - xmin⌉ : ℤ) : ℚ)
    (max w (max ((⌈xdn * 2⌉ : ℤ) : ℚ) ((⌈xmax + xdn⌉ : ℤ) : ℚ))) with hwn
  have haxdn : a ≤ xdn := by
    rw [hxdn]
    exact le_max_left _ _
  have hxd0 : 0 ≤ xdn := le_trans ha0 haxdn
  have hxdmin : 0 ≤ xmin + xdn := by linarith
  have hw1 : xmax - xmin ≤ wn := by
    rw [hwn]
    exact le_trans (Int.le_ceil _) (le_max_left _ _)
  have hw3 : xdn * 2 ≤ wn := by
    rw [hwn]
    exact le_trans (Int.le_ceil _)
      (le_trans (le_trans (le_max_left _ _) (le_max_right w _)) (le_max_right _ _))
  have hw2 : xmax + xdn ≤ wn := by
    rw [hwn]
    exact le_trans (Int.le_ceil _)
      (le_trans (le_trans (le_max_right ((⌈xdn * 2⌉ : ℤ) : ℚ) _) (le_max_right w _))
        (le_max_right _ _))
  have hw4 : xmax ≤ wn := by linarith
  have hguard : xGuard xmin xmax xdn wn = false := by
    simp only [xGuard, Bool.or_eq_false_iff, decide_eq_false_iff_not, not_lt]
    exact ⟨⟨⟨⟨hw1, hxdmin⟩, hw2⟩, hw4⟩, hw3⟩
  split_ifs at hstep
  all_goals first
  | exact Except.noConfusion hstep
  | (simp only [Except.ok.injEq, Prod.mk.injEq] at hstep
     obtain ⟨e1, e2, _⟩ := hstep
     rw [← e1, ← e2]
     exact hguard)

lemma yStep_guard_false {cy ymin ymax yd w h yd2 w2 h2 : ℚ}
    (hstep : yStep cy ymin ymax yd w h = .ok (yd2, w2, h2)) :
    yGuard ymin ymax yd2 h2 = false := by
  rw [yStep] at hstep
  set a := (if ymin < 0 then |ymin| else 0) with ha
  have hmina : 0 ≤ ymin + a := by
    rw [ha]
    rcases lt_or_le ymin 0 with hy | hy
    · rw [if_pos hy, abs_of_neg hy]
      linarith
    · rw [if_neg (not_lt.mpr hy)]
      linarith
  set ydn := max a (max (cy - h / 2) yd) with hydn
  set hn := max ((⌈ymax - ymin⌉ : ℤ) : ℚ)
    (max h (max ((⌈ymax + ydn⌉ : ℤ) : ℚ) ((⌈ymax⌉ : ℤ) : ℚ))) with hhn
  have haydn : a ≤ ydn := by
    rw [hydn]
    exact le_max_left _ _
  have hydmin : 0 ≤ ymin + ydn := by linarith
  have hh1 : ymax - ymin ≤ hn := by
    rw [hhn]
    exact le_trans (Int.le_ceil _) (le_max_left _ _)
  have hh2 : ymax + ydn ≤ hn := by
    rw [hhn]
    exact le_trans (Int.le_ceil _)
      (le_trans (le_trans (le_max_left _ _) (le_max_right h _)) (le_max_right _ _))
  have hh3 : ymax ≤ hn := by
    rw [hhn]
    exact le_trans (Int.le_ceil _)
      (le_trans (le_trans (le_max_right ((⌈ymax + ydn⌉ : ℤ) : ℚ) _) (le_max_right h _))
        (le_max_right _ _))
  have hguard : yGuard ymin ymax ydn hn = false := by
    simp only [yGuard, Bool.or_eq_false_iff, decide_eq_false_iff_not, not_lt]
    exact ⟨⟨⟨hh1, hydmin⟩, hh2⟩, hh3⟩
  split_ifs at hstep
  all_goals first
  | exact Except.noConfusion hstep
  | (simp only [Except.ok.injEq, Prod.mk.injEq] at hstep
     obtain ⟨e1, _, e3⟩ := hstep
     rw [← e1, ← e3]
     exact hguard)

lemma xLoop_of_guard_false {xmin xmax xd w h : ℚ}
    (hg : xGuard xmin xmax xd w = false) (n : ℕ) :
    xLoop xmin xmax n (xd, w, h) = .ok (xd, w, h) := by
  cases n <;> simp only [xLoop, hg, Bool.false_eq_true, if_false]

lemma yLoop_of_guard_false {cy ymin ymax yd w h : ℚ}
    (hg : yGuard ymin ymax yd h = false) (n : ℕ) :
    yLoop cy ymin ymax n (yd, w, h) = .ok (yd, w, h) := by
  cases n <;> simp only [yLoop, hg, Bool.false_eq_true, if_false]

lemma xLoopCapped_of_guard_false {xmin xmax xd w h : ℚ}
    (hg : xGuard xmin xmax xd w = false) (n : ℕ) :
    xLoopCapped xmin xmax n (xd, w, h) = .ok (xd, w, h) := by
  cases n <;> simp only [xLoopCapped, hg, Bool.false_eq_true, if_false]

lemma yLoopCapped_of_guard_false {cy ymin ymax yd w h : ℚ}
    (hg : yGuard ymin ymax yd h = false) (n : ℕ) :
    yLoopCapped cy ymin ymax n (yd, w, h) = .ok (yd, w, h) := by
  cases n <;> simp only [yLoopCapped, hg, Bool.false_eq_true, if_false]

lemma xLoop_eq_one {xmin xmax : ℚ} (s : ℚ × ℚ × ℚ) {n : ℕ} (hn : 1 ≤ n) :
    xLoop xmin xmax n s = xLoop xmin xmax 1 s := by
  obtain ⟨m, rfl⟩ : ∃ m, n = m + 1 := ⟨n - 1, by omega⟩
  obtain ⟨xd, w, h⟩ := s
  by_cases hg : xGuard xmin xmax xd w
  · cases hstep : xStep xmin xmax xd w h with
    | error e => simp [xLoop, hg, hstep, ebind_error]
    | ok s2 =>
      obtain ⟨xd2, w2, h2⟩ := s2
      have hg2 := xStep_guard_false hstep
      simp [xLoop, hg, hstep, ebind_ok, xLoop_of_guard_false hg2, hg2]
  · simp [xLoop, hg]

lemma yLoop_eq_one {cy ymin ymax : ℚ} (s : ℚ × ℚ × ℚ) {n : ℕ} (hn : 1 ≤ n) :
    yLoop cy ymin ymax n s = yLoop cy ymin ymax 1 s := by
  obtain ⟨m, rfl⟩ : ∃ m, n = m + 1 := ⟨n - 1, by omega⟩
  obtain ⟨yd, w, h⟩ := s
  by_cases hg : yGuard ymin ymax yd h
  · cases hstep : yStep cy ymin ymax yd w h with
    | error e => simp [yLoop, hg, hstep, ebind_error]
    | ok s2 =>
      obtain ⟨yd2, w2, h2⟩ := s2
      have hg2 := yStep_guard_false hstep
      simp [yLoop, hg, hstep, ebind_ok, yLoop_of_guard_false hg2, hg2]
  · simp [yLoop, hg]

lemma xLoopCapped_eq {xmin xmax : ℚ} (s : ℚ × ℚ × ℚ) {n : ℕ} (hn : 1 ≤ n) :
    xLoopCapped xmin xmax n s = xLoop xmin xmax n s := by
  obtain ⟨m, rfl⟩ : ∃ m, n = m + 1 := ⟨n - 1, by omega⟩
  obtain ⟨xd, w, h⟩ := s
  by_cases hg : xGuard xmin xmax xd w
  · cases hstep : xStep xmin xmax xd w h with
    | error e => simp [xLoop, xLoopCapped, hg, hstep, ebind_error]
    | ok s2 =>
      obtain ⟨xd2, w2, h2⟩ := s2
      have hg2 := xStep_guard_false hstep
      simp [xLoop, xLoopCapped, hg, hstep, ebind_ok, xLoop_of_guard_false hg2,
        xLoopCapped_of_guard_false hg2]
  · simp [xLoop, xLoopCapped, hg]

lemma yLoopCapped_eq {cy ymin ymax : ℚ} (s : ℚ × ℚ × ℚ) {n : ℕ} (hn : 1 ≤ n) :
    yLoopCapped cy ymin ymax n s = yLoop cy ymin ymax n s := by
  obtain ⟨m, rfl⟩ : ∃ m, n = m + 1 := ⟨n - 1, by omega⟩
  obtain ⟨yd, w, h⟩ := s
  by_cases hg : yGuard ymin ymax yd h
  · cases hstep : yStep cy ymin ymax yd w h with
    | error e => simp [yLoop, yLoopCapped, hg, hstep, ebind_error]
    | ok s2 =>
      obtain ⟨yd2, w2, h2⟩ := s2
      have hg2 := yStep_guard_false hstep
      simp [yLoop, yLoopCapped, hg, hstep, ebind_ok, yLoop_of_guard_false hg2,
        yLoopCapped_of_guard_false hg2]
  · simp [yLoop, yLoopCapped, hg]

/-- C2: the two canvas-widening loops of get_transformation terminate in
a bounded number of iterations: one pass of either loop body already
falsifies its guard, so the loop result is the same for every fuel bound
of at least one.  The source has no iteration cap, so the spec-modelled
capped variants (cap 1000, failing fast with TransformDidNotConverge)
are proved extensionally equal to the code's loops: the cap is never
exceeded. -/
theorem c2_loops_terminate (xmin xmax cy ymin ymax : ℚ) (s t : ℚ × ℚ × ℚ)
    (n : ℕ) (hn : 1 ≤ n) :
    xLoop xmin xmax n s = xLoop xmin xmax 1 s ∧
    yLoop cy ymin ymax n t = yLoop cy ymin ymax 1 t ∧
    xLoopCapped xmin xmax 1000 s = xLoop xmin xmax 1000 s ∧
    yLoopCapped cy ymin ymax 1000 t = yLoop cy ymin ymax 1000 t :=
  ⟨xLoop_eq_one s hn, yLoop_eq_one t hn,
   xLoopCapped_eq s (by norm_num), yLoopCapped_eq t (by norm_num)⟩

/-- C2 witness: the loop equalities instantiated at a concrete state and
fuel bound. -/
theorem c2_witness :
    xLoop 0 0 2 (810, 1620, 2160) = xLoop 0 0 1 (810, 1620, 2160) ∧
    yLoop 1080 0 0 2 (0, 1620, 2160) = yLoop 1080 0 0 1 (0, 1620, 2160) ∧
    xLoopCapped 0 0 1000 (810, 1620, 2160) = xLoop 0 0 1000 (810, 1620, 2160) ∧
    yLoopCapped 1080 0 0 1000 (0, 1620, 2160) = yLoop 1080 0 0 1000 (0, 1620, 2160) :=
  c2_loops_terminate 0 0 1080 0 0 (810, 1620, 2160) (0, 1620, 2160) 2 (by norm_num)

lemma ebind_eq_ok {α β : Type} {e : Except PyError α} {f : α → Except PyError β} {b : β}
    (h : ebind e f = .ok b) : ∃ a, e = .ok a ∧ f a = .ok b := by
  cases e with
  | error err => rw [ebind_error] at h; cases h
  | ok a => exact ⟨a, rfl, h⟩

lemma assertCheck_ok {c : Prop} [Decidable c] {u : Unit} (h : assertCheck c = .ok u) : c := by
  by_cases hc : c
  · exact hc
  · rw [assertCheck, if_neg hc] at h
    cases h

lemma le_foldMax (l : List ℚ) : ∀ a, a ≤ foldMax a l := by
  induction l with
  | nil => intro a; simp [foldMax]
  | cons x l ih =>
    intro a
    have hfx : foldMax a (x :: l) = foldMax (max a x) l := rfl
    rw [hfx]
    exact le_trans (le_max_left a x) (ih (max a x))

lemma mem_le_foldMax (l : List ℚ) : ∀ a x, x ∈ l → x ≤ foldMax a l := by
  induction l with
  | nil => intro a x hx; simp at hx
  | cons y l ih =>
    intro a x hx
    have hfx : foldMax a (y :: l) = foldMax (max a y) l := rfl
    rw [hfx]
    rcases List.mem_cons.mp hx with rfl | hx
    · exact le_trans (le_max_right a x) (le_foldMax l (max a x))
    · exact ih (max a y) x hx

lemma foldMin_le (l : List ℚ) : ∀ a, foldMin a l ≤ a := by
  induction l with
  | nil => intro a; simp [foldMin]
  | cons x l ih =>
    intro a
    have hfx : foldMin a (x :: l) = foldMin (min a x) l := rfl
    rw [hfx]
    exact le_trans (ih (min a x)) (min_le_left a x)

lemma foldMin_le_mem (l : List ℚ) : ∀ a x, x ∈ l → foldMin a l ≤ x := by
  induction l with
  | nil => intro a x hx; simp at hx
  | cons y l ih =>
    intro a x hx
    have hfx : foldMin a (y :: l) = foldMin (min a y) l := rfl
    rw [hfx]
    rcases List.mem_cons.mp hx with rfl | hx
    · exact le_trans (foldMin_le l (min a x)) (min_le_right a x)
    · exact ih (min a y) x hx

lemma getLimits_mem {blocks : List Block} {xmin ymin xmax ymax : ℚ}
    (h : getLimits blocks = some (xmin, ymin, xmax, ymax)) :
    limitPoints blocks ≠ [] ∧
    ∀ p ∈ limitPoints blocks, xmin ≤ p.1 ∧ p.1 ≤ xmax ∧ ymin ≤ p.2 ∧ p.2 ≤ ymax := by
  rw [getLimits] at h
  cases hlp : limitPoints blocks with
  | nil => rw [hlp] at h; cases h
  | cons q ps =>
    rw [hlp] at h
    simp only [Option.some.injEq, Prod.mk.injEq] at h
    obtain ⟨h1, h2, h3, h4⟩ := h
    refine ⟨by simp, ?_⟩
    intro p hp
    rcases List.mem_cons.mp hp with rfl | hp
    · exact ⟨h1 ▸ foldMin_le _ _, h3 ▸ le_foldMax _ _,
        h2 ▸ foldMin_le _ _, h4 ▸ le_foldMax _ _⟩
    · refine ⟨h1 ▸ foldMin_le_mem _ _ _ ?_, h3 ▸ mem_le_foldMax _ _ _ ?_,
        h2 ▸ foldMin_le_mem _ _ _ ?_, h4 ▸ mem_le_foldMax _ _ _ ?_⟩
      · exact List.mem_map_of_mem Prod.fst hp
      · exact List.mem_map_of_mem Prod.fst hp
      · exact List.mem_map_of_mem Prod.snd hp
      · exact List.mem_map_of_mem Prod.snd hp

lemma yStep_w_le {cy ymin ymax yd w h yd2 w2 h2 : ℚ}
    (hstep : yStep cy ymin ymax yd w h = .ok (yd2, w2, h2)) : w ≤ w2 := by
  rw [yStep] at hstep
  split_ifs at hstep
  all_goals first
  | exact Except.noConfusion hstep
  | (simp only [Except.ok.injEq, Prod.mk.injEq] at hstep
     obtain ⟨e1, e2, e3⟩ := hstep
     subst e2
     exact le_max_right _ _)
  | (simp only [Except.ok.injEq, Prod.mk.injEq] at hstep
     obtain ⟨e1, e2, e3⟩ := hstep
     exact le_of_eq e2)
  | exact le_refl _

lemma yLoop_w_mono {cy ymin ymax : ℚ} :
    ∀ (n : ℕ) (yd w h yd2 w2 h2 : ℚ),
      yLoop cy ymin ymax n (yd, w, h) = .ok (yd2, w2, h2) → w ≤ w2 := by
  intro n
  induction n with
  | zero =>
    intro yd w h yd2 w2 h2 hl
    simp only [yLoop] at hl
    split_ifs at hl
    all_goals first
    | exact Except.noConfusion hl
    | (simp only [Except.ok.injEq, Prod.mk.injEq] at hl
       exact le_of_eq hl.2.1)
    | exact le_refl _
  | succ n ih =>
    intro yd w h yd2 w2 h2 hl
    simp only [yLoop] at hl
    split_ifs at hl
    all_goals first
    | (obtain ⟨s2, hstep, hrec⟩ := ebind_eq_ok hl
       obtain ⟨yd3, w3, h3⟩ := s2
       exact le_trans (yStep_w_le hstep) (ih yd3 w3 h3 yd2 w2 h2 hrec))
    | (simp only [Except.ok.injEq, Prod.mk.injEq] at hl
       exact le_of_eq hl.2.1)
    | exact le_refl _

lemma roundHalfEven_nonneg (q : ℚ) (h : 0 ≤ q) : 0 ≤ roundHalfEven q := by
  have hf : 0 ≤ ⌊q⌋ := Int.floor_nonneg.mpr h
  rw [roundHalfEven]
  split_ifs <;> omega

lemma roundTo2_nonneg (q : ℚ) (h : 0 ≤ q) : 0 ≤ roundTo2 q := by
  rw [roundTo2]
  have h1 : (0 : ℤ) ≤ roundHalfEven (q * 100) :=
    roundHalfEven_nonneg _ (mul_nonneg h (by norm_num))
  have h2 : (0 : ℚ) ≤ (roundHalfEven (q * 100) : ℚ) := by exact_mod_cast h1
  positivity

/-- C1 (amended): for every page whose blocks contain at least one
coordinate-bearing point, the transform returned by get_transformation
keeps every coordinate pair that get_limits scans (the points of Stroke
blocks and the anchors of TextParagraph blocks) inside the canvas:
(x + x_delta) * x_scale lies in [0, canvas_width] and
(y + y_delta) * y_scale lies in [0, canvas_height].  Glyph block points
are not scanned by get_limits and are not constrained (see the
counterexample). -/
theorem c1_transform_bounds (fuel : ℕ) (node : NodeCtx) (blocks : List Block)
    (doc : Option Doc) (pageIndex : Option ℤ) (t : Transform)
    (h : getTransformation fuel node blocks doc pageIndex = .ok t) :
    ∀ p ∈ limitPoints blocks,
      0 ≤ (p.1 + t.xDelta) * t.xScale ∧ (p.1 + t.xDelta) * t.xScale ≤ (t.width : ℚ) ∧
      0 ≤ (p.2 + t.yDelta) * t.yScale ∧ (p.2 + t.yDelta) * t.yScale ≤ (t.height : ℚ) := by
  rw [getTransformation] at h
  cases hlim : getLimits blocks with
  | none =>
    rw [hlim, ocase_none] at h
    cases h
  | some lims =>
    rw [hlim, ocase_some] at h
    obtain ⟨xmin, ymin, xmax, ymax⟩ := lims
    obtain ⟨baseImage, hbi, h⟩ := ebind_eq_ok h
    obtain ⟨s1, hx, h⟩ := ebind_eq_ok h
    obtain ⟨xd, w1, h1⟩ := s1
    obtain ⟨u1, ha1, h⟩ := ebind_eq_ok h
    obtain ⟨u2, ha2, h⟩ := ebind_eq_ok h
    obtain ⟨u3, ha3, h⟩ := ebind_eq_ok h
    obtain ⟨s2, hy, h⟩ := ebind_eq_ok h
    obtain ⟨yd, w2, h2⟩ := s2
    obtain ⟨u4, ha4, h⟩ := ebind_eq_ok h
    obtain ⟨u5, ha5, h⟩ := ebind_eq_ok h
    obtain ⟨u6, ha6, h⟩ := ebind_eq_ok h
    have hA1 : xmax + xd ≤ w1 := assertCheck_ok ha1
    have hA2 : (0 : ℚ) ≤ xmin + xd := assertCheck_ok ha2
    have hA4 : ymax + yd ≤ ((⌈h2⌉ : ℤ) : ℚ) := assertCheck_ok ha4
    have hA5 : (0 : ℚ) ≤ ymin + yd := assertCheck_ok ha5
    have hww : w1 ≤ w2 := yLoop_w_mono fuel _ w1 h1 yd w2 h2 hy
    obtain ⟨hne, hbounds⟩ := getLimits_mem hlim
    cases baseImage with
    | none =>
      rw [ocase_none] at h
      simp only [Except.ok.injEq] at h
      subst h
      intro p hp
      obtain ⟨hp1, hp2, hp3, hp4⟩ := hbounds p hp
      dsimp only
      refine ⟨?_, ?_, ?_, ?_⟩
      · rw [mul_one]
        linarith
      · rw [mul_one]
        have hceil := Int.le_ceil w2
        push_cast
        linarith
      · rw [mul_one]
        linarith
      · rw [mul_one]
        push_cast
        linarith
    | some img =>
      rw [ocase_some] at h
      split_ifs at h with hz
      all_goals try exact Except.noConfusion h
      all_goals try (simp only [Except.ok.injEq] at h; subst h)
      all_goals try cases h
      push_neg at hz
      intro p hp
      obtain ⟨hp1, hp2, hp3, hp4⟩ := hbounds p hp
      have hw2nn : (0 : ℚ) ≤ w2 := by linarith
      have hWnn : (0 : ℤ) ≤ ⌈w2⌉ := Int.ceil_nonneg hw2nn
      have hWpos : (0 : ℤ) < ⌈w2⌉ := lt_of_le_of_ne hWnn (Ne.symm hz.1)
      have hWq : (0 : ℚ) < ((⌈w2⌉ : ℤ) : ℚ) := by exact_mod_cast hWpos
      have hHqnn : (0 : ℚ) ≤ ((⌈h2⌉ : ℤ) : ℚ) := by linarith
      have hHnn : (0 : ℤ) ≤ ⌈h2⌉ := by exact_mod_cast hHqnn
      have hHpos : (0 : ℤ) < ⌈h2⌉ := lt_of_le_of_ne hHnn (Ne.symm hz.2)
      have hHq : (0 : ℚ) < ((⌈h2⌉ : ℤ) : ℚ) := by exact_mod_cast hHpos
      set s := roundTo2 (min ((img.1 : ℚ) / ((⌈w2⌉ : ℤ) : ℚ))
        ((img.2 : ℚ) / ((⌈h2⌉ : ℤ) : ℚ))) with hs
      have hs0 : 0 ≤ s := by
        rw [hs]
        refine roundTo2_nonneg _ (le_min ?_ ?_)
        · exact div_nonneg (Nat.cast_nonneg _) (le_of_lt hWq)
        · exact div_nonneg (Nat.cast_nonneg _) (le_of_lt hHq)
      have hpx : p.1 + xd ≤ ((⌈w2⌉ : ℤ) : ℚ) := by
        have hceil := Int.le_ceil w2
        linarith
      have hpy : p.2 + yd ≤ ((⌈h2⌉ : ℤ) : ℚ) := by linarith
      dsimp only
      refine ⟨?_, ?_, ?_, ?_⟩
      · exact mul_nonneg (by linarith) hs0
      · have hm1 : (p.1 + xd) * s ≤ ((⌈w2⌉ : ℤ) : ℚ) * s :=
          mul_le_mul_of_nonneg_right hpx hs0
        have hm2 : ((⌈w2⌉ : ℤ) : ℚ) * s ≤ (((⌈w2⌉ : ℤ) : ℚ) * s) ⊔ (img.1 : ℚ) :=
          le_max_left _ _
        have hm3 := Int.le_ceil ((((⌈w2⌉ : ℤ) : ℚ) * s) ⊔ (img.1 : ℚ))
        linarith
      · exact mul_nonneg (by linarith) hs0
      · have hm1 : (p.2 + yd) * s ≤ ((⌈h2⌉ : ℤ) : ℚ) * s :=
          mul_le_mul_of_nonneg_right hpy hs0
        have hm2 : ((⌈h2⌉ : ℤ) : ℚ) * s ≤ (((⌈h2⌉ : ℤ) : ℚ) * s) ⊔ (img.2 : ℚ) :=
          le_max_left _ _
        have hm3 := Int.le_ceil ((((⌈h2⌉ : ℤ) : ℚ) * s) ⊔ (img.2 : ℚ))
        linarith

lemma demo_eval_stroke_only :
    getTransformation 1 mockCtx [demoStroke] none none =
      .ok ⟨810, 0, 1620, 2160, 1, 1, none⟩ := by
  have hlim : getLimits [demoStroke] = some (0, 0, 0, 0) := by
    norm_num [getLimits, limitPoints, demoStroke, foldMin, foldMax]
  have hgx : xGuard 0 0 810 1620 = false := by norm_num [xGuard]
  have hgy : yGuard 0 0 0 2160 = false := by norm_num [yGuard]
  rw [getTransformation, hlim, ocase_some]
  norm_num [mockCtx, baseImageOf, ebind_ok, ocase_none, assertCheck,
    xLoop_of_guard_false hgx, yLoop_of_guard_false hgy]

lemma demo_eval_with_glyph :
    getTransformation 1 mockCtx [demoStroke, demoGlyphFar] none none =
      .ok ⟨810, 0, 1620, 2160, 1, 1, none⟩ := by
  have hlim : getLimits [demoStroke, demoGlyphFar] = some (0, 0, 0, 0) := by
    norm_num [getLimits, limitPoints, demoStroke, demoGlyphFar, foldMin, foldMax]
  have hgx : xGuard 0 0 810 1620 = false := by norm_num [xGuard]
  have hgy : yGuard 0 0 0 2160 = false := by norm_num [yGuard]
  rw [getTransformation, hlim, ocase_some]
  norm_num [mockCtx, baseImageOf, ebind_ok, ocase_none, assertCheck,
    xLoop_of_guard_false hgx, yLoop_of_guard_false hgy]

/-- C1 counterexample: on a page holding a one-point stroke at the
origin and a glyph block with a point at x = 1000000, the returned
transform is (810, 0, 1620, 2160, 1, 1): the glyph point maps to
(1000000 + 810) * 1, far outside [0, 1620], so the claimed bound fails
for Glyph block points. -/
theorem c1_counterexample :
    getTransformation 1 mockCtx [demoStroke, demoGlyphFar] none none =
      .ok ⟨810, 0, 1620, 2160, 1, 1, none⟩ ∧
    blockPoints demoGlyphFar = .ok [⟨1000000, 0⟩] ∧
    ¬(((1000000 : ℚ) + 810) * 1 ≤ ((1620 : ℤ) : ℚ)) := by
  refine ⟨demo_eval_with_glyph, ?_, by norm_num⟩
  norm_num [blockPoints, demoGlyphFar]

/-- C1 witness: the amended bound theorem applied to the one-point
stroke page, whose transform is (810, 0, 1620, 2160, 1, 1). -/
theorem c1_witness :
    getTransformation 1 mockCtx [demoStroke] none none =
      .ok ⟨810, 0, 1620, 2160, 1, 1, none⟩ ∧
    ((0 : ℚ), (0 : ℚ)) ∈ limitPoints [demoStroke] ∧
    (0 ≤ (((0 : ℚ), (0 : ℚ)).1 + (810 : ℚ)) * 1 ∧
     (((0 : ℚ), (0 : ℚ)).1 + (810 : ℚ)) * 1 ≤ ((1620 : ℤ) : ℚ) ∧
     0 ≤ (((0 : ℚ), (0 : ℚ)).2 + (0 : ℚ)) * 1 ∧
     (((0 : ℚ), (0 : ℚ)).2 + (0 : ℚ)) * 1 ≤ ((2160 : ℤ) : ℚ)) :=
  ⟨demo_eval_stroke_only,
   by norm_num [limitPoints, demoStroke],
   c1_transform_bounds 1 mockCtx [demoStroke] none none _ demo_eval_stroke_only
     ((0 : ℚ), (0 : ℚ)) (by norm_num [limitPoints, demoStroke])⟩

lemma classifyOne_cases {pi : Option ℤ} {tags : List String} {ec : Bool} {i : ℕ} {b : Block}
    {out : ClassifyOut} (h : classifyOne pi tags ec i b = .ok out) :
    out = .skip ∨
    (∃ e, out = .svgEntry e) ∨
    (∃ txt c, out = .highlight (.text (pyOrNeg1 pi) (.fin i) tags txt c)) ∨
    (∃ blk, out = .cropEntry (i, blk)) := by
  cases b with
  | unreadable =>
    rw [classifyOne] at h
    simp only [Except.ok.injEq] at h
    exact Or.inl h.symm
  | rootText v =>
    rw [classifyOne] at h
    simp only [Except.ok.injEq] at h
    exact Or.inr (Or.inl ⟨_, h.symm⟩)
  | line v dl ed =>
    cases v with
    | none =>
      rw [classifyOne] at h
      simp only [Except.ok.injEq] at h
      exact Or.inl h.symm
    | some v =>
      rw [classifyOne] at h
      by_cases h1 : 0 < dl
      · rw [if_pos h1] at h
        simp only [Except.ok.injEq] at h
        exact Or.inl h.symm
      · rw [if_neg h1] at h
        by_cases h2 : v.points = []
        · rw [if_pos h2] at h
          simp only [Except.ok.injEq] at h
          exact Or.inl h.symm
        · rw [if_neg h2] at h
          cases hr : isRectangular (Block.line (some v) dl ed) (4/5) with
          | error e => rw [hr] at h; cases h
          | ok bb =>
            rw [hr] at h
            cases bb with
            | false =>
              cases hc : getColor ed v.color with
              | error e => rw [hc] at h; cases h
              | ok c =>
                rw [hc] at h
                simp only [Except.ok.injEq] at h
                exact Or.inr (Or.inl ⟨_, h.symm⟩)
            | true =>
              by_cases hec : ec = true
              · rw [if_pos hec] at h
                simp only [Except.ok.injEq] at h
                exact Or.inr (Or.inr (Or.inr ⟨_, h.symm⟩))
              · rw [if_neg hec] at h
                cases hc : getColor ed v.color with
                | error e => rw [hc] at h; cases h
                | ok c =>
                  rw [hc] at h
                  simp only [Except.ok.injEq] at h
                  exact Or.inr (Or.inl ⟨_, h.symm⟩)
  | glyph v dl ed =>
    cases v with
    | none =>
      rw [classifyOne] at h
      simp only [Except.ok.injEq] at h
      exact Or.inl h.symm
    | some g =>
      rw [classifyOne] at h
      by_cases h1 : 0 < dl
      · rw [if_pos h1] at h
        simp only [Except.ok.injEq] at h
        exact Or.inl h.symm
      · rw [if_neg h1] at h
        by_cases ht : g.text ≠ ""
        · rw [if_pos ht] at h
          cases hc : getColor ed g.color with
          | error e => rw [hc] at h; cases h
          | ok c =>
            rw [hc] at h
            simp only [Except.ok.injEq] at h
            exact Or.inr (Or.inr (Or.inl ⟨g.text, c, h.symm⟩))
        · rw [if_neg ht] at h
          by_cases h2 : g.points = []
          · rw [if_pos h2] at h
            simp only [Except.ok.injEq] at h
            exact Or.inl h.symm
          · rw [if_neg h2] at h
            cases hr : isRectangular (Block.glyph (some g) dl ed) (4/5) with
            | error e => rw [hr] at h; cases h
            | ok bb =>
              rw [hr] at h
              cases bb with
              | false =>
                cases hc : getColor ed g.color with
                | error e => rw [hc] at h; cases h
                | ok c =>
                  rw [hc] at h
                  simp only [Except.ok.injEq] at h
                  exact Or.inr (Or.inl ⟨_, h.symm⟩)
              | true =>
                by_cases hec : ec = true
                · rw [if_pos hec] at h
                  simp only [Except.ok.injEq] at h
                  exact Or.inr (Or.inr (Or.inr ⟨_, h.symm⟩))
                · rw [if_neg hec] at h
                  cases hc : getColor ed g.color with
                  | error e => rw [hc] at h; cases h
                  | ok c =>
                    rw [hc] at h
                    simp only [Except.ok.injEq] at h
                    exact Or.inr (Or.inl ⟨_, h.symm⟩)

lemma classifyAux_inv (pi : Option ℤ) (tags : List String) (ec : Bool) :
    ∀ (blocks : List Block) (i : ℕ) (ts : List Highlight)
      (svgs : List (ℕ × Block × Rgba)) (crops : List (ℕ × Block)),
      classifyAux pi tags ec i blocks = .ok (ts, svgs, crops) →
      (∀ h ∈ ts, ∃ j txt c, h = Highlight.text (pyOrNeg1 pi) (.fin j) tags txt c ∧ i ≤ j) ∧
      List.Pairwise hlIdxLt ts ∧
      (∀ e ∈ crops, i ≤ e.1) ∧
      List.Pairwise (fun a b => a.1 < b.1) crops ∧
      (∀ h ∈ ts, ∀ e ∈ crops, h.blockIdx ≠ BlockIdx.fin e.1) := by
  intro blocks
  induction blocks with
  | nil =>
    intro i ts svgs crops h
    rw [classifyAux] at h
    simp only [Except.ok.injEq, Prod.mk.injEq] at h
    obtain ⟨e1, e2, e3⟩ := h
    subst e1
    subst e2
    subst e3
    refine ⟨?_, ?_, ?_, ?_, ?_⟩ <;> simp
  | cons b rest ih =>
    intro i ts svgs crops h
    rw [classifyAux] at h
    obtain ⟨out, ho, h⟩ := ebind_eq_ok h
    obtain ⟨acc, hrec, h⟩ := ebind_eq_ok h
    obtain ⟨ts', svgs', crops'⟩ := acc
    simp only [Except.ok.injEq] at h
    obtain ⟨F1, F2, F3, F4, F5⟩ := ih (i + 1) ts' svgs' crops' hrec
    have hts' : ∀ h2 ∈ ts', ∃ j txt c,
        h2 = Highlight.text (pyOrNeg1 pi) (.fin j) tags txt c ∧ i + 1 ≤ j := F1
    rcases classifyOne_cases ho with hsk | ⟨e, hsvg⟩ | ⟨txt, c, hhl⟩ | ⟨blk, hcr⟩
    · subst hsk
      simp only [applyOut] at h
      simp only [Prod.mk.injEq] at h
      obtain ⟨e1, e2, e3⟩ := h
      subst e1
      subst e2
      subst e3
      refine ⟨?_, F2, ?_, F4, F5⟩
      · intro h2 hh
        obtain ⟨j, txt, c, hs, hij⟩ := F1 h2 hh
        exact ⟨j, txt, c, hs, by omega⟩
      · intro e he
        exact le_trans (Nat.le_succ i) (F3 e he)
    · subst hsvg
      simp only [applyOut] at h
      simp only [Prod.mk.injEq] at h
      obtain ⟨e1, e2, e3⟩ := h
      subst e1
      subst e2
      subst e3
      refine ⟨?_, F2, ?_, F4, F5⟩
      · intro h2 hh
        obtain ⟨j, txt, c, hs, hij⟩ := F1 h2 hh
        exact ⟨j, txt, c, hs, by omega⟩
      · intro e he
        exact le_trans (Nat.le_succ i) (F3 e he)
    · subst hhl
      simp only [applyOut] at h
      simp only [Prod.mk.injEq] at h
      obtain ⟨e1, e2, e3⟩ := h
      subst e1
      subst e2
      subst e3
      refine ⟨?_, ?_, ?_, F4, ?_⟩
      · intro h2 hh
        rcases List.mem_cons.mp hh with rfl | hh
        · exact ⟨i, txt, c, rfl, le_refl i⟩
        · obtain ⟨j, txt2, c2, hs, hij⟩ := F1 h2 hh
          exact ⟨j, txt2, c2, hs, by omega⟩
      · refine List.Pairwise.cons ?_ F2
        intro h2 hh
        obtain ⟨j, txt2, c2, hs, hij⟩ := F1 h2 hh
        subst hs
        simp only [hlIdxLt, Highlight.blockIdx, BlockIdx.lt]
        omega
      · intro e he
        exact le_trans (Nat.le_succ i) (F3 e he)
      · intro h2 hh e he
        rcases List.mem_cons.mp hh with rfl | hh
        · have := F3 e he
          simp only [Highlight.blockIdx]
          intro hcon
          have : i = e.1 := BlockIdx.fin.injEq .. ▸ hcon
          omega
        · exact F5 h2 hh e he
    · subst hcr
      simp only [applyOut] at h
      simp only [Prod.mk.injEq] at h
      obtain ⟨e1, e2, e3⟩ := h
      subst e1
      subst e2
      subst e3
      refine ⟨?_, F2, ?_, ?_, ?_⟩
      · intro h2 hh
        obtain ⟨j, txt2, c2, hs, hij⟩ := F1 h2 hh
        exact ⟨j, txt2, c2, hs, by omega⟩
      · intro e he
        rcases List.mem_cons.mp he with rfl | he
        · exact le_refl i
        · exact le_trans (Nat.le_succ i) (F3 e he)
      · refine List.Pairwise.cons ?_ F4
        intro e he
        have := F3 e he
        omega
      · intro h2 hh e he
        rcases List.mem_cons.mp he with rfl | he
        · obtain ⟨j, txt2, c2, hs, hij⟩ := F1 h2 hh
          subst hs
          simp only [Highlight.blockIdx]
          intro hcon
          have : j = i := BlockIdx.fin.injEq .. ▸ hcon
          omega
        · exact F5 h2 hh e he

lemma cropEach_shape (pi : Option ℤ) (tags : List String) :
    ∀ (crops : List (ℕ × Block)) (imgs : List Highlight),
      cropEach pi tags crops = .ok imgs →
      imgs = crops.map (fun e => Highlight.image pi (.fin e.1) tags) := by
  intro crops
  induction crops with
  | nil =>
    intro imgs h
    rw [cropEach] at h
    simp only [Except.ok.injEq] at h
    rw [← h]
    rfl
  | cons p rest ih =>
    intro imgs h
    rw [cropEach] at h
    cases hgl : getLimits [p.2] with
    | none => rw [hgl, ocase_none] at h; cases h
    | some q =>
      rw [hgl, ocase_some] at h
      obtain ⟨hs2, hrec, h⟩ := ebind_eq_ok h
      simp only [Except.ok.injEq] at h
      rw [← h, List.map_cons, ih hs2 hrec]

lemma extract_ok_shape {fuel : ℕ} {blocks : List Block} {ec : Bool} {pi : Option ℤ}
    {tags : List String} {node : NodeCtx} {doc : Option Doc} {r : ExtractResult}
    (h : extractHighlightsFromBlocks fuel blocks ec pi tags node doc = .ok r) :
    pageShape pi tags r.highlights := by
  rw [extractHighlightsFromBlocks] at h
  obtain ⟨cls, hcl, h⟩ := ebind_eq_ok h
  obtain ⟨ts, svgs, crops⟩ := cls
  obtain ⟨otr, htr, h⟩ := ebind_eq_ok h
  obtain ⟨ci, hci, h⟩ := ebind_eq_ok h
  obtain ⟨imgs, extra⟩ := ci
  obtain ⟨F1, F2, F3, F4, F5⟩ := classifyAux_inv pi tags ec blocks 0 ts svgs crops hcl
  have himgs : imgs = [] ∨
      imgs = crops.map (fun e => Highlight.image pi (.fin e.1) tags) := by
    rw [resolveCrops] at hci
    split_ifs at hci with hne
    · cases otr with
      | none => rw [ocase_none] at hci; cases hci
      | some t =>
        rw [ocase_some] at hci
        cases hbase : t.baseImage with
        | none =>
          rw [hbase, ocase_none] at hci
          obtain ⟨extra2, hd, hci⟩ := ebind_eq_ok hci
          simp only [Except.ok.injEq, Prod.mk.injEq] at hci
          exact Or.inl hci.1.symm
        | some img =>
          rw [hbase, ocase_some] at hci
          obtain ⟨imgs2, hc, hci⟩ := ebind_eq_ok hci
          simp only [Except.ok.injEq, Prod.mk.injEq] at hci
          exact Or.inr (hci.1 ▸ cropEach_shape pi tags crops imgs2 hc)
    · simp only [Except.ok.injEq, Prod.mk.injEq] at hci
      exact Or.inl hci.1.symm
  have himfacts : (∀ h2 ∈ imgs, ∃ i2, h2 = Highlight.image pi (.fin i2) tags) ∧
      List.Pairwise hlIdxLt imgs ∧
      (∀ a ∈ ts, ∀ b ∈ imgs, a.blockIdx ≠ b.blockIdx) := by
    rcases himgs with rfl | rfl
    · simp
    · refine ⟨?_, ?_, ?_⟩
      · intro h2 hh
        obtain ⟨e, he, rfl⟩ := List.mem_map.mp hh
        exact ⟨e.1, rfl⟩
      · rw [List.pairwise_map]
        refine F4.imp ?_
        intro a b hab
        simp only [hlIdxLt, Highlight.blockIdx, BlockIdx.lt]
        exact hab
      · intro a ha b hb
        obtain ⟨e, he, rfl⟩ := List.mem_map.mp hb
        have := F5 a ha e he
        simpa [Highlight.blockIdx] using this
  have hts : ∀ h2 ∈ ts, ∃ i2 txt c, h2 = Highlight.text (pyOrNeg1 pi) (.fin i2) tags txt c := by
    intro h2 hh
    obtain ⟨j, txt, c, hs, _⟩ := F1 h2 hh
    exact ⟨j, txt, c, hs⟩
  rw [finishSvg] at h
  split_ifs at h with hsempty
  · simp only [Except.ok.injEq] at h
    rw [← h]
    exact ⟨ts, imgs, [], by simp, hts, F2, himfacts.1, himfacts.2.1, himfacts.2.2, Or.inl rfl⟩
  · cases otr with
    | none => rw [ocase_none] at h; cases h
    | some t =>
      rw [ocase_some, blocksToSvg, ebind_ok] at h
      simp only [Except.ok.injEq] at h
      rw [← h]
      exact ⟨ts, imgs, [Highlight.image pi .inf tags], by simp, hts, F2,
        himfacts.1, himfacts.2.1, himfacts.2.2, Or.inr rfl⟩

lemma blockIdx_lt_ne (x y : BlockIdx) (hxy : BlockIdx.lt x y) : x ≠ y := by
  cases x <;> cases y <;> simp [BlockIdx.lt] at hxy ⊢ <;> omega

/-- C3: one extraction call emits at most one DrawingHighlight; a
DrawingHighlight carries the inf block-index sentinel; every TextHighlight
and ImageHighlight of the call carries a finite block index strictly below
the sentinel, so the DrawingHighlight sorts after all of them; and any
two non-drawing highlights of the call carry distinct block indices, so
sorting by block index orders them. -/
theorem c3_single_drawing (fuel : ℕ) (blocks : List Block) (ec : Bool) (pi : Option ℤ)
    (tags : List String) (node : NodeCtx) (doc : Option Doc) (r : ExtractResult)
    (h : extractHighlightsFromBlocks fuel blocks ec pi tags node doc = .ok r) :
    r.highlights.countP Highlight.isDrawing ≤ 1 ∧
    (∀ d ∈ r.highlights, d.isDrawing = true → d.blockIdx = BlockIdx.inf) ∧
    (∀ d ∈ r.highlights, d.isDrawing = true →
      ∀ h2 ∈ r.highlights, h2.isDrawing = false → BlockIdx.lt h2.blockIdx d.blockIdx) ∧
    List.Pairwise (fun a b => a.isDrawing = false → b.isDrawing = false →
      a.blockIdx ≠ b.blockIdx) r.highlights := by
  obtain ⟨ts, imgs, dr, hr, hts, hpt, him, hpi, hdisj, hdr⟩ := extract_ok_shape h
  have htfin : ∀ a ∈ ts, ∃ j, a.blockIdx = BlockIdx.fin j := by
    intro a ha
    obtain ⟨j, txt, c, rfl⟩ := hts a ha
    exact ⟨j, rfl⟩
  have himfin : ∀ a ∈ imgs, ∃ j, a.blockIdx = BlockIdx.fin j := by
    intro a ha
    obtain ⟨j, rfl⟩ := him a ha
    exact ⟨j, rfl⟩
  have hdrawTrue : ∀ a : Highlight, a.isDrawing = true ↔ a.blockIdx = BlockIdx.inf := by
    intro a
    simp [Highlight.isDrawing]
  have htnd : ∀ a ∈ ts, a.isDrawing = false := by
    intro a ha
    obtain ⟨j, hj⟩ := htfin a ha
    simp [Highlight.isDrawing, hj]
  have himnd : ∀ a ∈ imgs, a.isDrawing = false := by
    intro a ha
    obtain ⟨j, hj⟩ := himfin a ha
    simp [Highlight.isDrawing, hj]
  refine ⟨?_, ?_, ?_, ?_⟩
  · rw [hr, List.countP_append, List.countP_append]
    have h1 : ts.countP Highlight.isDrawing = 0 := by
      rw [List.countP_eq_zero]
      intro a ha
      simp [htnd a ha]
    have h2 : imgs.countP Highlight.isDrawing = 0 := by
      rw [List.countP_eq_zero]
      intro a ha
      simp [himnd a ha]
    have h3 : dr.countP Highlight.isDrawing ≤ 1 := by
      rcases hdr with rfl | rfl
      · simp
      · simp [List.countP_cons]
        split <;> omega
    omega
  · intro d hd hdr2
    exact (hdrawTrue d).mp hdr2
  · intro d hd hdraw h2 hh2 hnd
    have hdinf : d.blockIdx = BlockIdx.inf := (hdrawTrue d).mp hdraw
    have : h2.blockIdx ≠ BlockIdx.inf := by
      intro hc
      rw [← hdrawTrue h2] at hc
      rw [hnd] at hc
      cases hc
    cases hj : h2.blockIdx with
    | fin j => rw [hdinf]; simp [BlockIdx.lt]
    | inf => exact absurd hj this
  · rw [hr]
    rw [List.pairwise_append]
    refine ⟨?_, ?_, ?_⟩
    · rw [List.pairwise_append]
      refine ⟨hpt.imp (fun hab _ _ => blockIdx_lt_ne _ _ hab),
        hpi.imp (fun hab _ _ => blockIdx_lt_ne _ _ hab), ?_⟩
      intro a ha b hb _ _
      exact hdisj a ha b hb
    · rcases hdr with rfl | rfl <;> simp
    · intro a ha b hb _ hbf
      rcases hdr with rfl | rfl
      · simp at hb
      · simp at hb
        rw [hb] at hbf
        simp [Highlight.isDrawing, Highlight.blockIdx] at hbf

lemma demo_eval_page0 :
    extractHighlightsFromBlocks 1 [demoHighlightGlyph] true (some 0) [] mockCtx none =
      .ok ⟨[Highlight.text (-1) (.fin 0) [] "hi" (4, 3, 2, 5)], 0⟩ := by decide

lemma demo_eval_page1 :
    extractHighlightsFromBlocks 1 [demoHighlightGlyph] true (some 1) [] mockCtx none =
      .ok ⟨[Highlight.text 1 (.fin 0) [] "hi" (4, 3, 2, 5)], 0⟩ := by decide

lemma demo_eval_pageNone :
    extractHighlightsFromBlocks 1 [demoHighlightGlyph] true none [] mockCtx none =
      .ok ⟨[Highlight.text (-1) (.fin 0) [] "hi" (4, 3, 2, 5)], 0⟩ := by decide

lemma demo_eval_empty :
    extractHighlightsFromBlocks 1 [] true none [] mockCtx none = .ok ⟨[], 0⟩ := by decide

lemma demo_eval_crash :
    extractHighlightsFromBlocks 1 [demoHighlightGlyph, demoEmptyText] true none [] mockCtx none =
      .error .nameError := by decide

/-- C8 (amended): every highlight emitted by one extraction call records
a page index determined by the invoked page index as the code computes
it: a TextHighlight records (page_index or -1), which maps the known
page index 0 and the unknown page (None) to -1 and keeps every other
index; an ImageHighlight or DrawingHighlight records the invoked page
index unchanged (None, not -1, when the page is unknown).  No highlight
is dropped for an unknown page index. -/
theorem c8_recorded_pages (fuel : ℕ) (blocks : List Block) (ec : Bool) (pi : Option ℤ)
    (tags : List String) (node : NodeCtx) (doc : Option Doc) (r : ExtractResult)
    (h : extractHighlightsFromBlocks fuel blocks ec pi tags node doc = .ok r) :
    ∀ h2 ∈ r.highlights, recordedPageOk pi h2 := by
  obtain ⟨ts, imgs, dr, hr, hts, _, him, _, _, hdr⟩ := extract_ok_shape h
  rw [hr]
  intro h2 hh
  rcases List.mem_append.mp hh with hh2 | hdrm
  · rcases List.mem_append.mp hh2 with hht | hhi
    · obtain ⟨i, txt, c, rfl⟩ := hts _ hht
      simp [recordedPageOk]
    · obtain ⟨i, rfl⟩ := him _ hhi
      simp [recordedPageOk]
  · rcases hdr with rfl | rfl
    · simp at hdrm
    · simp at hdrm
      subst hdrm
      simp [recordedPageOk]

/-- C8 counterexample: invoked on the known page index 0 with one glyph
highlight block, the emitted TextHighlight records page index -1, not
the invoked page 0: the Python expression (page_index or -1) treats the
integer 0 as falsy. -/
theorem c8_counterexample :
    extractHighlightsFromBlocks 1 [demoHighlightGlyph] true (some 0) [] mockCtx none =
      .ok ⟨[Highlight.text (-1) (.fin 0) [] "hi" (4, 3, 2, 5)], 0⟩ ∧
    (-1 : ℤ) ≠ 0 :=
  ⟨demo_eval_page0, by decide⟩

/-- C8 witness: on page 1 the recorded-page description holds for the
emitted TextHighlight. -/
theorem c8_witness :
    extractHighlightsFromBlocks 1 [demoHighlightGlyph] true (some 1) [] mockCtx none =
      .ok ⟨[Highlight.text 1 (.fin 0) [] "hi" (4, 3, 2, 5)], 0⟩ ∧
    recordedPageOk (some 1) (Highlight.text 1 (.fin 0) [] "hi" (4, 3, 2, 5)) :=
  ⟨demo_eval_page1,
   c8_recorded_pages 1 [demoHighlightGlyph] true (some 1) [] mockCtx none _ demo_eval_page1
     (Highlight.text 1 (.fin 0) [] "hi" (4, 3, 2, 5)) (by decide)⟩

/-- C4 (code bug): a page with no coordinate-bearing blocks makes
get_transformation fail with the NoGeometry TransformationError, and
extract_highlights_from_blocks catches exactly that error — but the
except branch only logs, so the transform variables stay unbound and the
function crashes with NameError as soon as the page has any vector or
crop candidate: on a page holding a glyph highlight block plus an empty
RootTextBlock the collected TextHighlight is lost to the NameError
instead of being returned.  When the page has no vector/crop candidates
the claimed behaviour does hold: the TextHighlights are returned, and a
page with no blocks at all returns an empty list and writes no
temporary files. -/
theorem c4_transform_failure (fuel : ℕ) :
    extractHighlightsFromBlocks 1 [demoHighlightGlyph, demoEmptyText] true none [] mockCtx none =
      .error .nameError ∧
    extractHighlightsFromBlocks 1 [demoHighlightGlyph] true none [] mockCtx none =
      .ok ⟨[Highlight.text (-1) (.fin 0) [] "hi" (4, 3, 2, 5)], 0⟩ ∧
    extractHighlightsFromBlocks 1 [] true none [] mockCtx none = .ok ⟨[], 0⟩ ∧
    getTransformation fuel mockCtx [demoHighlightGlyph, demoEmptyText] none none =
      .error (.transformationError "No points found in the blocks") := by
  refine ⟨demo_eval_crash, demo_eval_pageNone, demo_eval_empty, ?_⟩
  rw [getTransformation]
  have hlim : getLimits [demoHighlightGlyph, demoEmptyText] = none := by decide
  rw [hlim, ocase_none]

/-- C4 witness: the statement instantiated at fuel 1. -/
theorem c4_witness :
    extractHighlightsFromBlocks 1 [demoHighlightGlyph, demoEmptyText] true none [] mockCtx none =
      .error .nameError ∧
    getTransformation 1 mockCtx [demoHighlightGlyph, demoEmptyText] none none =
      .error (.transformationError "No points found in the blocks") :=
  ⟨(c4_transform_failure 1).1, (c4_transform_failure 1).2.2.2⟩

lemma extractPages_shape {fuel : ℕ} {ec : Bool} {node : NodeModel} :
    ∀ (pages : List (Option ℤ × List Block)) (r : List Highlight),
      extractPages fuel ec node pages = .ok r →
      ∃ pls : List ((Option ℤ) × List Highlight),
        pls.map Prod.fst = pages.map Prod.fst ∧
        r = (pls.map Prod.snd).join ∧
        ∀ q ∈ pls, pageShape q.1 (tagsFor node q.1) q.2 := by
  intro pages
  induction pages with
  | nil =>
    intro r h
    rw [extractPages] at h
    simp only [Except.ok.injEq] at h
    exact ⟨[], by simp, by simp [← h], by simp⟩
  | cons p rest ih =>
    intro r h
    rw [extractPages] at h
    obtain ⟨r1, h1, h⟩ := ebind_eq_ok h
    obtain ⟨hs, h2, h⟩ := ebind_eq_ok h
    simp only [Except.ok.injEq] at h
    obtain ⟨pls, hkeys, hjoin, hshapes⟩ := ih hs h2
    refine ⟨(p.1, r1.highlights) :: pls, by simp [hkeys], ?_, ?_⟩
    · rw [← h, hjoin]
      simp
    · intro q hq
      rcases List.mem_cons.mp hq with rfl | hq
      · exact extract_ok_shape h1
      · exact hshapes q hq

/-- C10: the list returned by extract_highlights is already grouped and
ordered by page: it is the concatenation, over the pages in strictly
ascending page-index order, of per-page lists each of which consists of
the page's TextHighlights (ascending block index) followed by its
ImageHighlights (ascending block index, disjoint from the text indices)
followed by at most one DrawingHighlight carrying the inf sentinel.  The
page keys are distinct because the page map is a dictionary. -/
theorem c10_ordered_output (fuel : ℕ) (node : NodeModel) (ec : Bool) (r : List Highlight)
    (hnd : (node.rmBlocks.map Prod.fst).Nodup)
    (h : extractHighlights fuel node ec = .ok r) :
    ∃ pls : List ((Option ℤ) × List Highlight),
      List.Pairwise (fun a b => optPageLt a.1 b.1) pls ∧
      r = (pls.map Prod.snd).join ∧
      ∀ q ∈ pls, pageShape q.1 (tagsFor node q.1) q.2 := by
  rw [extractHighlights] at h
  split_ifs at h with hemp
  · simp only [Except.ok.injEq] at h
    exact ⟨[], by simp, by simp [← h], by simp⟩
  · cases hsp : sortPages node.rmBlocks with
    | error e => rw [hsp] at h; cases h
    | ok pages =>
      rw [hsp] at h
      obtain ⟨pls, hkeys, hjoin, hshapes⟩ := extractPages_shape pages r h
      refine ⟨pls, ?_, hjoin, hshapes⟩
      rw [sortPages] at hsp
      split_ifs at hsp with hg
      all_goals try cases hsp
      all_goals try (simp only [Except.ok.injEq] at hsp; subst hsp)
      set pages2 := List.insertionSort (fun a b => a.1.getD 0 ≤ b.1.getD 0) node.rmBlocks with hpg
      haveI hTot : IsTotal (Option ℤ × List Block) (fun a b => a.1.getD 0 ≤ b.1.getD 0) :=
        ⟨fun a b => le_total _ _⟩
      haveI hTrans : IsTrans (Option ℤ × List Block) (fun a b => a.1.getD 0 ≤ b.1.getD 0) :=
        ⟨fun a b c hab hbc => le_trans hab hbc⟩
      have hsorted : List.Pairwise (fun a b => a.1.getD 0 ≤ b.1.getD 0) pages2 := by
        rw [hpg]
        exact List.sorted_insertionSort _ _
      have hperm : List.Perm pages2 node.rmBlocks := by
        rw [hpg]
        exact List.perm_insertionSort _ _
      have hnd2 : (pages2.map Prod.fst).Nodup := ((hperm.map Prod.fst).nodup_iff).mpr hnd
      have hne2 : List.Pairwise (fun a b : Option ℤ × List Block => a.1 ≠ b.1) pages2 :=
        (List.pairwise_map).mp hnd2
      have hpw : List.Pairwise
          (fun a b : Option ℤ × List Block => optPageLt a.1 b.1) pages2 := by
        by_cases hlen : 2 ≤ node.rmBlocks.length
        · have hnone : ∀ p ∈ node.rmBlocks, p.1 ≠ none := by
            intro p hp hcon
            exact hg ⟨hlen, List.any_eq_true.mpr ⟨p, hp, by simp [hcon]⟩⟩
          have hsome : ∀ p ∈ pages2, ∃ k, p.1 = some k := by
            intro p hp
            have := hnone p (hperm.mem_iff.mp hp)
            cases hpk : p.1 with
            | none => exact absurd hpk this
            | some k => exact ⟨k, rfl⟩
          have hcomb := hsorted.and hne2
          refine List.Pairwise.imp_of_mem ?_ hcomb
          intro a b ha hb hab
          obtain ⟨ka, hka⟩ := hsome a ha
          obtain ⟨kb, hkb⟩ := hsome b hb
          rw [hka, hkb]
          simp only [optPageLt]
          rw [hka, hkb] at hab
          simp only [Option.getD_some] at hab
          rcases hab with ⟨hle, hne⟩
          rcases lt_or_eq_of_le hle with hlt | heq
          · exact hlt
          · rw [heq] at hne
            exact absurd rfl hne
        · have hplen : pages2.length ≤ 1 := by
            rw [hperm.length_eq]
            omega
          rcases hpp : pages2 with _ | ⟨a, rest2⟩
          · exact List.Pairwise.nil
          · rcases rest2 with _ | ⟨b, rest3⟩
            · exact List.pairwise_singleton _ _
            · rw [hpp] at hplen
              simp at hplen
      have hfin : List.Pairwise optPageLt (pls.map Prod.fst) := by
        rw [hkeys]
        exact (List.pairwise_map).mpr hpw
      exact (List.pairwise_map).mp hfin

lemma demo_eval_node :
    extractHighlights 1 demoNode true =
      .ok [Highlight.text (-1) (.fin 0) [] "hi" (4, 3, 2, 5),
           Highlight.text 1 (.fin 0) [] "hi" (4, 3, 2, 5)] := by decide

/-- C10 witness: the page-ordering theorem applied to a concrete
two-page node listed out of page order; the returned list is the page-0
extraction followed by the page-1 extraction. -/
theorem c10_witness :
    (demoNode.rmBlocks.map Prod.fst).Nodup ∧
    extractHighlights 1 demoNode true =
      .ok [Highlight.text (-1) (.fin 0) [] "hi" (4, 3, 2, 5),
           Highlight.text 1 (.fin 0) [] "hi" (4, 3, 2, 5)] ∧
    ∃ pls : List ((Option ℤ) × List Highlight),
      List.Pairwise (fun a b => optPageLt a.1 b.1) pls ∧
      [Highlight.text (-1) (.fin 0) [] "hi" (4, 3, 2, 5),
       Highlight.text 1 (.fin 0) [] "hi" (4, 3, 2, 5)] = (pls.map Prod.snd).join ∧
      ∀ q ∈ pls, pageShape q.1 (tagsFor demoNode q.1) q.2 :=
  ⟨by decide, demo_eval_node,
   c10_ordered_output 1 demoNode true _ (by decide) demo_eval_node⟩

/-- C3 witness: the drawing-ordering theorem applied to a concrete page
with one glyph highlight block. -/
theorem c3_witness :
    extractHighlightsFromBlocks 1 [demoHighlightGlyph] true (some 0) [] mockCtx none =
      .ok ⟨[Highlight.text (-1) (.fin 0) [] "hi" (4, 3, 2, 5)], 0⟩ ∧
    (ExtractResult.highlights ⟨[Highlight.text (-1) (.fin 0) [] "hi" (4, 3, 2, 5)], 0⟩).countP
        Highlight.isDrawing ≤ 1 ∧
    List.Pairwise (fun a b => a.isDrawing = false → b.isDrawing = false →
        a.blockIdx ≠ b.blockIdx)
      (ExtractResult.highlights ⟨[Highlight.text (-1) (.fin 0) [] "hi" (4, 3, 2, 5)], 0⟩) :=
  ⟨demo_eval_page0,
   (c3_single_drawing 1 [demoHighlightGlyph] true (some 0) [] mockCtx none _ demo_eval_page0).1,
   (c3_single_drawing 1 [demoHighlightGlyph] true (some 0) [] mockCtx none _
     demo_eval_page0).2.2.2⟩
